import Mathlib

/-!
Shallow embedding of the sprint-metrics service
(src/backend/services/sprint_metrics.py) of the sprintAnalyzer repository,
together with proofs about the claims on its behaviour.

Modelling conventions:
* Python floats are modelled as rationals.  The builtin round of Python
  (round half to even) is modelled by rhe below.
* Jira date strings are opaque; the helper _parse_date (strptime over five
  formats) is abstracted by an oracle parse : String -> Option Int giving
  the timezone-stripped datetime as seconds.  Days are seconds fdiv 86400,
  and the epoch convention puts Monday at day residue 0, matching the
  weekday numbering of Python (Monday = 0 .. Sunday = 6).
* HTTP fetches are oracles: a function from the request parameters to the
  decoded payload.  The per-instance caches are modelled explicitly for the
  cache claims, and left out of the pure per-metric computations, in which
  every fetch is deterministic because of those caches.
* The helper _get_story_points (scan of the story-point custom fields,
  first parseable numeric value wins) is abstracted by the storyPoints
  field of Issue, its result.
-/

namespace SprintAnalyzer

/-! ### Python-style primitives -/

/-- Lexicographic comparison of char lists by code point, the comparison
Python uses on strings. -/
def charsLt : List Char → List Char → Bool
  | [], [] => false
  | [], _ :: _ => true
  | _ :: _, [] => false
  | a :: as, b :: bs =>
    if a.toNat < b.toNat then true
    else if b.toNat < a.toNat then false
    else charsLt as bs

/-- Python string less-than. -/
def strLt (a b : String) : Bool := charsLt a.data b.data

/-- Python truthiness of an optional string: None and the empty string are
falsy. -/
def strTruthy : Option String → Bool
  | none => false
  | some s => s ≠ ""

/-- Python str.lower, modelled structurally over the char list (the ASCII
lowering Char.toLower implements), so that concrete instances evaluate. -/
def pyLower (s : String) : String := String.mk (s.data.map Char.toLower)

/-- Round half to even at integer precision, the semantics of the Python
builtin round. -/
def rhe (q : ℚ) : ℤ :=
  if q - ⌊q⌋ < 1/2 then ⌊q⌋
  else if (1 : ℚ)/2 < q - ⌊q⌋ then ⌊q⌋ + 1
  else if ⌊q⌋ % 2 = 0 then ⌊q⌋ else ⌊q⌋ + 1

/-- Python round(x, 1). -/
def round1 (q : ℚ) : ℚ := (rhe (q * 10) : ℚ) / 10

/-- Python round(x, 2). -/
def round2 (q : ℚ) : ℚ := (rhe (q * 100) : ℚ) / 100

/-- Day index of a naive datetime given in seconds (floor division, matching
Python date arithmetic). -/
def dayOf (t : ℤ) : ℤ := t.fdiv 86400

/-- Number of weekdays among n consecutive days starting at day index d
(Monday is residue 0, so residues 0..4 are working days). -/
def countWeekdaysFrom : ℕ → ℤ → ℕ
  | 0, _ => 0
  | n + 1, d => (if d.emod 7 < 5 then 1 else 0) + countWeekdaysFrom n (d + 1)

/-- Modelled after the spec words for the weekday count: the number of
weekdays (Monday through Friday) in the half-open day interval from s up to
but excluding e. -/
def weekdaySpec (s e : ℤ) : ℕ :=
  (List.range (e - s).toNat).countP (fun k : ℕ => decide ((s + (k : ℤ)).emod 7 < 5))

/-! ### Data model -/

/-- A sprint as returned by the agile API (the fields the service reads). -/
structure Sprint where
  id : ℤ
  name : String
  startDate : Option String
  endDate : Option String
deriving DecidableEq

/-- One item of a changelog history entry. -/
structure ChangeItem where
  field : String
  fromString : Option String
  toStr : Option String
deriving DecidableEq

/-- One changelog history entry of an issue. -/
structure ChangeHistory where
  created : Option String
  items : List ChangeItem
deriving DecidableEq

/-- An issue as returned by the sprint issue API, restricted to the fields
the service reads.  storyPoints abstracts _get_story_points, resolution is
the resolution field (None when unresolved, possibly an empty marker), and
parentKey is the key of the parent entry of the payload if present. -/
structure Issue where
  key : String
  summary : String
  resolution : Option String
  resolutiondate : Option String
  statusName : Option String
  issuetypeName : String
  subtask : Bool
  parentKey : Option String
  storyPoints : Option ℚ
  created : Option String
  changelog : List ChangeHistory

/-- Parent info as shaped by _get_issue_parent. -/
structure ParentInfo where
  key : String
  summary : String
  projectKey : String
  issueType : String
deriving DecidableEq

/-- A single-character apostrophe string, used in the terminal status list. -/
def apoStr : String := String.mk [Char.ofNat 39]

/-- TERMINAL_STATUSES of the service. -/
def terminalStatuses : List String :=
  ["done", "closed", "resolved", "complete", "completed",
   "cancelled", "canceled", "won" ++ apoStr ++ "t do", "wont do", "descoped"]

/-- Embedding of _is_completed: resolution set, or resolutiondate set, or
the (lower-cased) status name is terminal. -/
def is_completed (i : Issue) : Bool :=
  let has_resolution := strTruthy i.resolution
  let has_resolution_date := strTruthy i.resolutiondate
  let status_name := pyLower (i.statusName.getD (""))
  has_resolution || has_resolution_date || terminalStatuses.contains status_name

/-- Embedding of _count_working_days.  parse abstracts _parse_date; both
dates are normalized to midnight (their day index) before the day loop. -/
def count_working_days (parse : String → Option ℤ) (startDate endDate : Option String) : ℕ :=
  match startDate, endDate with
  | some sd, some ed =>
    if sd = "" || ed = "" then 10
    else
      match parse sd, parse ed with
      | some st, some en =>
        let s := dayOf st
        let e := dayOf en
        let w := countWeekdaysFrom (e - s).toNat s
        if 0 < w then w else 10
      | some _, none => 10
      | none, _ => 10
  | some _, none => 10
  | none, _ => 10

/-! ### Sprint window fetch (_get_sprints) -/

/-- The pagination loop of the service: fetch a page of at most pageSize
elements starting at startAt, stop when a short page arrives.  The server
collection is the full list the API pages over.  Returns the accumulated
elements together with the number of page requests issued. -/
def fetchPages (pageSize : ℕ) (hp : 0 < pageSize) (server : List α) (startAt : ℕ) :
    List α × ℕ :=
  if h : ((server.drop startAt).take pageSize).length < pageSize then
    ((server.drop startAt).take pageSize, 1)
  else
    let rest := fetchPages pageSize hp server (startAt + pageSize)
    ((server.drop startAt).take pageSize ++ rest.1, rest.2 + 1)
termination_by server.length - startAt
decreasing_by
  simp only [List.length_take, List.length_drop, not_lt, le_min_iff] at h
  omega

/-- effective_limit of _get_sprints: sprint_count when given and truthy
(nonzero), the limit argument otherwise. -/
def effectiveLimit (limit : ℕ) (sprint_count : Option ℕ) : ℕ :=
  match sprint_count with
  | some n => if n ≠ 0 then n else limit
  | none => limit

/-- Sort key of the sprint sort: the endDate string, empty when missing. -/
def sprintEndKey (s : Sprint) : String := s.endDate.getD ("")

/-- Stable descending sort by end date, as list.sort with key endDate and
reverse set does in Python. -/
def sortSprintsDesc (l : List Sprint) : List Sprint :=
  l.mergeSort (fun a b => !(strLt (sprintEndKey a) (sprintEndKey b)))

/-- The date range filter of _get_sprints: the first ten characters of the
end date must not be lexicographically before start_date nor after
end_date, each bound only when given and nonempty. -/
def inDateRange (start_date end_date : Option String) (s : Sprint) : Bool :=
  let sprintEnd := (sprintEndKey s).take 10
  !(strTruthy start_date && strLt sprintEnd (start_date.getD (""))) &&
  !(strTruthy end_date && strLt (end_date.getD ("")) sprintEnd)

/-- Post-processing of _get_sprints after pagination: sort all closed
sprints by end date descending, then either filter by the date range or
take the effective limit. -/
def sprintsFromAll (allSprints : List Sprint) (eff : ℕ)
    (start_date end_date : Option String) : List Sprint :=
  let sorted := sortSprintsDesc allSprints
  if strTruthy start_date || strTruthy end_date then
    sorted.filter (inDateRange start_date end_date)
  else
    sorted.take eff

/-- Embedding of _get_sprints (pure part; the cache is modelled separately
for the cache claims).  server gives, per board id and sprint state, the
collection the API pages over; the service always requests the closed
state. -/
def get_sprints (server : ℤ → String → List Sprint) (board_id : ℤ) (limit : ℕ)
    (start_date end_date : Option String) (sprint_count : Option ℕ) : List Sprint :=
  let eff := effectiveLimit limit sprint_count
  let allSprints := (fetchPages 50 (by decide) (server board_id ("closed")) 0).1
  sprintsFromAll allSprints eff start_date end_date

/-! ### Sprint carryover (_calculate_sprint_carryover) -/

/-- issue_sprint_history for one issue key: one entry per occurrence of the
key in the issue list of each sprint of the window, in window order. -/
def historyOf (sprints : List Sprint) (sprintIssues : ℤ → List Issue) (k : String) :
    List ℤ :=
  sprints.flatMap (fun s =>
    ((sprintIssues s.id).filter (fun i => i.key == k)).map (fun _ => s.id))

/-- Per-issue record built by the carryover loop. -/
structure CarryIssueData where
  key : String
  summary : String
  issueType : String
  status : String
  isCompleted : Bool
  points : ℚ
  sprintCount : ℕ
deriving DecidableEq

/-- The issue_data record of the carryover loop for one issue. -/
def carryIssueData (sprints : List Sprint) (sprintIssues : ℤ → List Issue)
    (i : Issue) : CarryIssueData :=
  { key := i.key
    summary := i.summary
    issueType := i.issuetypeName
    status := i.statusName.getD ("")
    isCompleted := is_completed i
    points := i.storyPoints.getD 0
    sprintCount := (historyOf sprints sprintIssues i.key).length }

/-- was_in_previous of the carryover loop for the sprint at index idx: there
is a next sprint in the (most-recent-first) window list, its id is truthy
(nonzero), and that id occurs in the issue history.  The Python conjunction
previous_sprint_id and (previous_sprint_id in history) is falsy when the id
is 0. -/
def wasInPrevious (sprints : List Sprint) (sprintIssues : ℤ → List Issue)
    (idx : ℕ) (i : Issue) : Bool :=
  match sprints.get? (idx + 1) with
  | some prev =>
    prev.id != 0 && (historyOf sprints sprintIssues i.key).contains prev.id
  | none => false

/-- Per-sprint entry of the carryover metrics. -/
structure CarrySprintEntry where
  sprintId : ℤ
  sprintName : String
  startDate : Option String
  endDate : Option String
  totalIssues : ℕ
  totalPoints : ℚ
  carryoverCount : ℕ
  carryoverPercentage : ℚ
  carryoverPoints : ℚ
  carryoverPointsPercentage : ℚ
  newIssuesCount : ℕ
  carryoverCompletionRate : ℚ
  newCompletionRate : ℚ
  repeatOffendersCount : ℕ
  repeatOffenders : List CarryIssueData
  carryoverIssues : List CarryIssueData

/-- Stable descending sort by sprintCount used for the carryover lists. -/
def sortBySprintCountDesc (l : List CarryIssueData) : List CarryIssueData :=
  l.mergeSort (fun a b => !(a.sprintCount < b.sprintCount : Bool))

/-- The carryover entry of the sprint at index idx of the window. -/
def carrySprintEntry (sprints : List Sprint) (sprintIssues : ℤ → List Issue)
    (idx : ℕ) (s : Sprint) : CarrySprintEntry :=
  let issues := sprintIssues s.id
  let totalIssues := issues.length
  let mk := carryIssueData sprints sprintIssues
  let carryoverIssues := (issues.filter (wasInPrevious sprints sprintIssues idx)).map mk
  let newIssues := (issues.filter (fun i => !wasInPrevious sprints sprintIssues idx i)).map mk
  let repeatOffenders :=
    (issues.filter (fun i => 3 ≤ (historyOf sprints sprintIssues i.key).length)).map mk
  let totalPoints : ℚ := (issues.map (fun i => i.storyPoints.getD 0)).sum
  let carryoverPoints : ℚ := (carryoverIssues.map (fun d => d.points)).sum
  let carryoverCount := carryoverIssues.length
  let carryoverPct : ℚ :=
    if 0 < totalIssues then (carryoverCount : ℚ) / (totalIssues : ℚ) * 100 else 0
  let carryoverPointsPct : ℚ :=
    if 0 < totalPoints then carryoverPoints / totalPoints * 100 else 0
  let carryoverCompleted := (carryoverIssues.filter (fun d => d.isCompleted)).length
  let newCompleted := (newIssues.filter (fun d => d.isCompleted)).length
  let carryoverCompletionRate : ℚ :=
    if 0 < carryoverCount then (carryoverCompleted : ℚ) / (carryoverCount : ℚ) * 100 else 0
  let newCompletionRate : ℚ :=
    if 0 < newIssues.length then (newCompleted : ℚ) / (newIssues.length : ℚ) * 100 else 0
  { sprintId := s.id
    sprintName := s.name
    startDate := s.startDate
    endDate := s.endDate
    totalIssues := totalIssues
    totalPoints := round1 totalPoints
    carryoverCount := carryoverCount
    carryoverPercentage := round1 carryoverPct
    carryoverPoints := round1 carryoverPoints
    carryoverPointsPercentage := round1 carryoverPointsPct
    newIssuesCount := newIssues.length
    carryoverCompletionRate := round1 carryoverCompletionRate
    newCompletionRate := round1 newCompletionRate
    repeatOffendersCount := repeatOffenders.length
    repeatOffenders := (sortBySprintCountDesc repeatOffenders).take 10
    carryoverIssues := sortBySprintCountDesc carryoverIssues }

/-- Result of _calculate_sprint_carryover. -/
structure CarryoverResult where
  sprints : List CarrySprintEntry
  averageCarryoverPercentage : ℚ
  totalSprints : ℕ

/-- Embedding of _calculate_sprint_carryover. -/
def calc_sprint_carryover (sprints : List Sprint) (sprintIssues : ℤ → List Issue) :
    CarryoverResult :=
  let entries := sprints.enum.map (fun p => carrySprintEntry sprints sprintIssues p.1 p.2)
  let totalCarryover := (entries.map (fun e => e.carryoverCount)).sum
  let totalIssuesAll := (entries.map (fun e => e.totalIssues)).sum
  let avgPct : ℚ :=
    if 0 < totalIssuesAll then (totalCarryover : ℚ) / (totalIssuesAll : ℚ) * 100 else 0
  { sprints := entries
    averageCarryoverPercentage := round1 avgPct
    totalSprints := entries.length }

/-! ### Velocity (_calculate_velocity) -/

/-- The completed-points accumulation of _calculate_velocity: add the story
points of completed issues, skipping falsy point values (None and 0). -/
def completedPointsOf (issues : List Issue) : ℚ :=
  issues.foldl (fun acc i =>
    if is_completed i then
      match i.storyPoints with
      | some p => if p ≠ 0 then acc + p else acc
      | none => acc
    else acc) 0

/-- Modelled after the spec words: the sum of the story-point values of the
completed issues of a sprint. -/
def completedPointsSpec (issues : List Issue) : ℚ :=
  (((issues.filter (fun i => is_completed i)).filterMap Issue.storyPoints)).sum

/-- The standard sprint length of _calculate_velocity: median of the
working-day counts, with Python integer floor division for the even case,
and 10 for an empty window. -/
def standardSprintDays (wds : List ℕ) : ℕ :=
  if wds = [] then 10
  else
    let sorted := wds.mergeSort (fun a b => (a ≤ b : Bool))
    let mid := sorted.length / 2
    if sorted.length % 2 = 0 then (sorted.getD (mid - 1) 0 + sorted.getD mid 0) / 2
    else sorted.getD mid 0

/-- Per-sprint entry of the velocity metrics. -/
structure VelocitySprintEntry where
  sprintId : ℤ
  sprintName : String
  startDate : Option String
  endDate : Option String
  completedPoints : ℚ
  workingDays : ℕ
  pointsPerDay : ℚ
  normalizedPoints : ℚ

/-- Result of _calculate_velocity. -/
structure VelocityResult where
  sprints : List VelocitySprintEntry
  averageVelocity : ℚ
  rawAverageVelocity : ℚ
  standardSprintDays : ℕ
  totalSprints : ℕ

/-- The velocity entry of one sprint once the standard length is known. -/
def velocityEntry (parse : String → Option ℤ) (sprintIssues : ℤ → List Issue)
    (std : ℕ) (s : Sprint) : VelocitySprintEntry :=
  let total := completedPointsOf (sprintIssues s.id)
  let wd := count_working_days parse s.startDate s.endDate
  let ppd : ℚ := if 0 < wd then total / (wd : ℚ) else 0
  let np : ℚ := if 0 < wd then ppd * (std : ℚ) else total
  { sprintId := s.id
    sprintName := s.name
    startDate := s.startDate
    endDate := s.endDate
    completedPoints := total
    workingDays := wd
    pointsPerDay := round2 ppd
    normalizedPoints := round1 np }

/-- Embedding of _calculate_velocity. -/
def calc_velocity (parse : String → Option ℤ) (sprints : List Sprint)
    (sprintIssues : ℤ → List Issue) : VelocityResult :=
  let wds := sprints.map (fun s => count_working_days parse s.startDate s.endDate)
  let std := standardSprintDays wds
  let entries := sprints.map (velocityEntry parse sprintIssues std)
  let raws := entries.map (fun e => e.completedPoints)
  let norms := entries.map (fun e => e.normalizedPoints)
  let rawAvg : ℚ := if raws = [] then 0 else raws.sum / (raws.length : ℚ)
  let normAvg : ℚ := if norms = [] then 0 else norms.sum / (norms.length : ℚ)
  { sprints := entries
    averageVelocity := round1 normAvg
    rawAverageVelocity := round1 rawAvg
    standardSprintDays := std
    totalSprints := entries.length }

/-! ### Strategic alignment (_calculate_alignment and helpers) -/

/-- Embedding of _get_initiative_from_parent.  parentOf abstracts
_get_issue_parent (deterministic thanks to the parent cache).  For a
sub-task parent (a story) two hops are taken: story to epic, epic to
initiative; otherwise the parent is the epic and one hop is taken. -/
def get_initiative_from_parent (parentOf : String → Option ParentInfo)
    (parent_key : String) (is_subtask_parent : Bool) : Option ParentInfo :=
  if is_subtask_parent then
    match parentOf parent_key with
    | none => none
    | some epic => parentOf epic.key
  else
    parentOf parent_key

/-- The truthy parent key of an issue payload: the parent entry must exist
and carry a nonempty key. -/
def parentKeyTruthy (o : Option String) : Option String :=
  match o with
  | some k => if k = "" then none else some k
  | none => none

/-- fallback_avg of _calculate_alignment: mean of the story points of all
completed non-sub-task pointed issues over the window, 1 when there are
none. -/
def fallbackAvg (sprints : List Sprint) (sprintIssues : ℤ → List Issue) : ℚ :=
  let pts := sprints.flatMap (fun s =>
    (sprintIssues s.id).filterMap (fun i =>
      if is_completed i && !i.subtask then i.storyPoints else none))
  if pts = [] then 1 else pts.sum / (pts.length : ℚ)

/-- stories_with_pointed_subtasks: the parent keys of completed sub-tasks
that carry story points. -/
def storiesWithPointedSubtasks (sprints : List Sprint)
    (sprintIssues : ℤ → List Issue) : List String :=
  sprints.flatMap (fun s =>
    (sprintIssues s.id).filterMap (fun i =>
      if is_completed i && i.subtask && i.storyPoints.isSome then
        parentKeyTruthy i.parentKey
      else none))

/-- One element of issues_to_process. -/
structure ProcTuple where
  issue : Issue
  points : ℚ
  parentKey : Option String
  isSubtask : Bool
  sprintId : ℤ

/-- The issues_to_process loop of _calculate_alignment: walk the window in
order, keep completed issues not seen before, drop unpointed sub-tasks and
stories covered by pointed sub-tasks, give unpointed non-sub-tasks the
fallback average. -/
def buildProcess (sprints : List Sprint) (sprintIssues : ℤ → List Issue)
    (favg : ℚ) (swps : List String) : List ProcTuple :=
  let pairs := sprints.flatMap (fun s => (sprintIssues s.id).map (fun i => (s.id, i)))
  (pairs.foldl (fun (acc : List ProcTuple × List String) p =>
    if !is_completed p.2 then acc
    else if acc.2.contains p.2.key then acc
    else
      let seen := p.2.key :: acc.2
      if p.2.subtask && p.2.storyPoints.isNone then (acc.1, seen)
      else if !p.2.subtask && swps.contains p.2.key then (acc.1, seen)
      else
        let points := p.2.storyPoints.getD favg
        (acc.1 ++ [⟨p.2, points, parentKeyTruthy p.2.parentKey, p.2.subtask, p.1⟩], seen)
    ) ([], [])).1

/-- parent_info of _calculate_alignment: per parent key, the sub-task flag
of the first processed issue that referenced it. -/
def parentInfoFlags (tuples : List ProcTuple) : List (String × Bool) :=
  tuples.foldl (fun acc t =>
    match t.parentKey with
    | some pk => if (acc.lookup pk).isSome then acc else acc ++ [(pk, t.isSubtask)]
    | none => acc) []

/-- parent_to_initiative as a lookup: resolve a parent key through
_get_initiative_from_parent using the recorded sub-task flag. -/
def parentToInitiative (parentOf : String → Option ParentInfo)
    (tuples : List ProcTuple) : String → Option ParentInfo :=
  fun pk =>
    match (parentInfoFlags tuples).lookup pk with
    | some flag => get_initiative_from_parent parentOf pk flag
    | none => none

/-- Per-sprint accumulator of _calculate_alignment. -/
structure SprintTotals where
  total : ℚ
  linked : ℚ
  orphan : ℚ
  service : ℚ
  business : ℚ

/-- The zero totals. -/
def zeroTotals : SprintTotals := ⟨0, 0, 0, 0, 0⟩

/-- is_service of the processing loop: the service label is truthy and
appears among the labels of the initiative. -/
def isServiceInit (serviceLabel : Option String) (labelsOf : String → List String)
    (init : ParentInfo) : Bool :=
  strTruthy serviceLabel && (labelsOf init.key).contains (serviceLabel.getD (""))

/-- One step of the totals accumulation: add the points of one processed
issue to the total of its sprint and to exactly one of the linked or orphan
buckets (and to service or business when linked). -/
def alignStep (lookupInit : String → Option ParentInfo) (excluded : List String)
    (serviceLabel : Option String) (labelsOf : String → List String)
    (tot : ℤ → SprintTotals) (t : ProcTuple) : ℤ → SprintTotals := fun sid =>
  if sid = t.sprintId then
    let cur := tot sid
    let cur := { cur with total := cur.total + t.points }
    match t.parentKey with
    | some pk =>
      match lookupInit pk with
      | some init =>
        let serviceTag := isServiceInit serviceLabel labelsOf init
        let cur :=
          if !excluded.contains init.projectKey then
            if serviceTag then { cur with service := cur.service + t.points }
            else { cur with business := cur.business + t.points }
          else cur
        if !excluded.contains init.projectKey then
          { cur with linked := cur.linked + t.points }
        else
          { cur with orphan := cur.orphan + t.points }
      | none => { cur with orphan := cur.orphan + t.points }
    | none => { cur with orphan := cur.orphan + t.points }
  else tot sid

/-- The totals of every sprint after processing all issues. -/
def alignTotalsOf (parentOf : String → Option ParentInfo)
    (labelsOf : String → List String) (sprints : List Sprint)
    (sprintIssues : ℤ → List Issue) (excluded : List String)
    (serviceLabel : Option String) : ℤ → SprintTotals :=
  let favg := fallbackAvg sprints sprintIssues
  let swps := storiesWithPointedSubtasks sprints sprintIssues
  let tuples := buildProcess sprints sprintIssues favg swps
  let lookupInit := parentToInitiative parentOf tuples
  tuples.foldl (alignStep lookupInit excluded serviceLabel labelsOf) (fun _ => zeroTotals)

/-- Per-sprint entry of the alignment metrics. -/
structure AlignmentEntry where
  sprintId : ℤ
  sprintName : String
  totalPoints : ℚ
  linkedToInitiative : ℚ
  orphanCount : ℚ
  initiativeLinkedPercentage : ℚ
  orphanPercentage : ℚ
  servicePoints : ℚ
  businessPoints : ℚ

/-- The alignment entry of one sprint from its totals. -/
def alignmentEntryOf (tot : SprintTotals) (s : Sprint) : AlignmentEntry :=
  let linkedPct : ℚ := if 0 < tot.total then tot.linked / tot.total * 100 else 0
  { sprintId := s.id
    sprintName := s.name
    totalPoints := round1 tot.total
    linkedToInitiative := round1 tot.linked
    orphanCount := round1 tot.orphan
    initiativeLinkedPercentage := round1 linkedPct
    orphanPercentage := round1 (100 - linkedPct)
    servicePoints := round1 tot.service
    businessPoints := round1 tot.business }

/-- Result of _calculate_alignment.  The discovered-spaces hierarchy and
label list, pure output formatting untouched by any claim, are left out of
the embedding. -/
structure AlignmentResult where
  sprints : List AlignmentEntry
  excludedSpaces : List String
  serviceLabel : Option String

/-- Embedding of _calculate_alignment (sprint totals part). -/
def calc_alignment (parentOf : String → Option ParentInfo)
    (labelsOf : String → List String) (sprints : List Sprint)
    (sprintIssues : ℤ → List Issue) (excluded : List String)
    (serviceLabel : Option String) : AlignmentResult :=
  let totals := alignTotalsOf parentOf labelsOf sprints sprintIssues excluded serviceLabel
  { sprints := sprints.map (fun s => alignmentEntryOf (totals s.id) s)
    excludedSpaces := excluded
    serviceLabel := serviceLabel }

/-! ### Completion, quality and coverage metrics -/

/-- Per-sprint entry of the completion metrics. -/
structure CompletionEntry where
  sprintId : ℤ
  sprintName : String
  startDate : Option String
  endDate : Option String
  committed : ℕ
  completed : ℕ
  completionRate : ℚ
  midSprintAdditions : ℕ
  midSprintPoints : ℕ

/-- Result of _calculate_completion. -/
structure CompletionResult where
  sprints : List CompletionEntry
  averageCompletionRate : ℚ

/-- Embedding of _calculate_completion. -/
def calc_completion (sprints : List Sprint) (sprintIssues : ℤ → List Issue) :
    CompletionResult :=
  let entries := sprints.map (fun s =>
    let issues := sprintIssues s.id
    let committed := issues.length
    let completed := (issues.filter (fun i => is_completed i)).length
    let rate : ℚ := if 0 < committed then (completed : ℚ) / (committed : ℚ) * 100 else 0
    { sprintId := s.id
      sprintName := s.name
      startDate := s.startDate
      endDate := s.endDate
      committed := committed
      completed := completed
      completionRate := round1 rate
      midSprintAdditions := 0
      midSprintPoints := 0 : CompletionEntry })
  let rates := entries.map (fun e => e.completionRate)
  let avg : ℚ := if rates = [] then 0 else rates.sum / (rates.length : ℚ)
  { sprints := entries, averageCompletionRate := round1 avg }

/-- Char-list prefix test. -/
def charsStartWith : List Char → List Char → Bool
  | [], _ => true
  | _ :: _, [] => false
  | a :: as, b :: bs => a == b && charsStartWith as bs

/-- Char-list contiguous substring test. -/
def charsHaveSub (needle : List Char) : List Char → Bool
  | [] => charsStartWith needle []
  | c :: cs => charsStartWith needle (c :: cs) || charsHaveSub needle cs

/-- Python substring membership on strings. -/
def strContains (hay needle : String) : Bool := charsHaveSub needle.data hay.data

/-- Per-sprint entry of the quality metrics. -/
structure QualityEntry where
  sprintId : ℤ
  sprintName : String
  startDate : Option String
  endDate : Option String
  totalIssues : ℕ
  completedIssues : ℕ
  incompletePercentage : ℚ
  bugCount : ℕ
  completedBugs : ℕ
  bugRatio : ℚ
  averageTicketAgeDays : ℚ

/-- Result of _calculate_quality. -/
structure QualityResult where
  sprints : List QualityEntry

/-- Age in whole days between creation and resolution: Python timedelta
days, a floor division of the second difference. -/
def ageDays (created resolved : ℤ) : ℤ := (resolved - created).fdiv 86400

/-- Embedding of _calculate_quality. -/
def calc_quality (parse : String → Option ℤ) (sprints : List Sprint)
    (sprintIssues : ℤ → List Issue) : QualityResult :=
  { sprints := sprints.map (fun s =>
      let issues := sprintIssues s.id
      let totalIssues := issues.length
      let isBug := fun (i : Issue) => strContains (pyLower i.issuetypeName) ("bug")
      let completedIssues := (issues.filter (fun i => is_completed i)).length
      let bugCount := (issues.filter isBug).length
      let completedBugs := (issues.filter (fun i => is_completed i && isBug i)).length
      let ages := issues.filterMap (fun i =>
        if is_completed i then
          match i.created.bind parse, i.resolutiondate.bind parse with
          | some c, some r => some (ageDays c r)
          | _, _ => none
        else none)
      let incompletePct : ℚ :=
        if 0 < totalIssues then
          ((totalIssues - completedIssues : ℕ) : ℚ) / (totalIssues : ℚ) * 100
        else 0
      let bugRatio : ℚ :=
        if 0 < completedIssues then (completedBugs : ℚ) / (completedIssues : ℚ) * 100 else 0
      let avgAge : ℚ := if 0 < ages.length then (ages.sum : ℚ) / (ages.length : ℚ) else 0
      { sprintId := s.id
        sprintName := s.name
        startDate := s.startDate
        endDate := s.endDate
        totalIssues := totalIssues
        completedIssues := completedIssues
        incompletePercentage := round1 incompletePct
        bugCount := bugCount
        completedBugs := completedBugs
        bugRatio := round1 bugRatio
        averageTicketAgeDays := round1 avgAge : QualityEntry }) }

/-- Per-sprint entry of the coverage metrics. -/
structure CoverageEntry where
  sprintId : ℤ
  sprintName : String
  withPoints : ℕ
  withoutPoints : ℕ
  coveragePercentage : ℚ

/-- Result of _calculate_coverage. -/
structure CoverageResult where
  sprints : List CoverageEntry
  fallbackAveragePoints : ℚ

/-- Embedding of _calculate_coverage. -/
def calc_coverage (sprints : List Sprint) (sprintIssues : ℤ → List Issue) :
    CoverageResult :=
  let entries := sprints.map (fun s =>
    let issues := sprintIssues s.id
    let withPoints := (issues.filter (fun i => i.storyPoints.isSome)).length
    let withoutPoints := (issues.filter (fun i => i.storyPoints.isNone)).length
    let total := withPoints + withoutPoints
    let pct : ℚ := if 0 < total then (withPoints : ℚ) / (total : ℚ) * 100 else 0
    { sprintId := s.id
      sprintName := s.name
      withPoints := withPoints
      withoutPoints := withoutPoints
      coveragePercentage := round1 pct : CoverageEntry })
  let allPoints := sprints.flatMap (fun s => (sprintIssues s.id).filterMap Issue.storyPoints)
  let favg : ℚ := if allPoints = [] then 0 else allPoints.sum / (allPoints.length : ℚ)
  { sprints := entries, fallbackAveragePoints := round1 favg }

/-! ### The metrics aggregator (get_all_metrics and the public getters) -/

/-- The external world of one service instance: the deterministic results
of the underlying HTTP endpoints (deterministic per instance thanks to the
caches). -/
structure JiraEnv where
  parse : String → Option ℤ
  server : ℤ → String → List Sprint
  issuesOf : ℤ → List Issue
  historicalIssuesOf : ℤ → List Issue
  statusCategory : String → Option String
  parentOf : String → Option ParentInfo
  labelsOf : String → List String

/-- Embedding of _prefetch_all_data: the sprint window, together with the
per-sprint issue sets (the parallel fan-out builds exactly the map
sprint id to issue list, queried only at window ids). -/
def prefetch_all_data (env : JiraEnv) (board_id : ℤ) (start_date end_date : Option String)
    (sprint_count : Option ℕ) : List Sprint × (ℤ → List Issue) :=
  (get_sprints env.server board_id 6 start_date end_date sprint_count, env.issuesOf)

/-- Embedding of get_velocity_metrics. -/
def get_velocity_metrics (env : JiraEnv) (board_id : ℤ)
    (start_date end_date : Option String) (sprint_count : Option ℕ) : VelocityResult :=
  let p := prefetch_all_data env board_id start_date end_date sprint_count
  calc_velocity env.parse p.1 p.2

/-- Embedding of get_completion_metrics. -/
def get_completion_metrics (env : JiraEnv) (board_id : ℤ)
    (start_date end_date : Option String) (sprint_count : Option ℕ) : CompletionResult :=
  let p := prefetch_all_data env board_id start_date end_date sprint_count
  calc_completion p.1 p.2

/-- Embedding of get_quality_metrics. -/
def get_quality_metrics (env : JiraEnv) (board_id : ℤ)
    (start_date end_date : Option String) (sprint_count : Option ℕ) : QualityResult :=
  let p := prefetch_all_data env board_id start_date end_date sprint_count
  calc_quality env.parse p.1 p.2

/-- Embedding of get_alignment_metrics. -/
def get_alignment_metrics (env : JiraEnv) (board_id : ℤ) (excluded : List String)
    (start_date end_date : Option String) (sprint_count : Option ℕ)
    (serviceLabel : Option String) : AlignmentResult :=
  let p := prefetch_all_data env board_id start_date end_date sprint_count
  calc_alignment env.parentOf env.labelsOf p.1 p.2 excluded serviceLabel

/-- Embedding of get_coverage_metrics. -/
def get_coverage_metrics (env : JiraEnv) (board_id : ℤ)
    (start_date end_date : Option String) (sprint_count : Option ℕ) : CoverageResult :=
  let p := prefetch_all_data env board_id start_date end_date sprint_count
  calc_coverage p.1 p.2

/-- The combined result of get_all_metrics: one field per key of the
returned dict. -/
structure AllMetrics where
  velocity : VelocityResult
  completion : CompletionResult
  quality : QualityResult
  alignment : AlignmentResult
  coverage : CoverageResult

/-- The keys of the dict returned by get_all_metrics, in construction
order. -/
def all_metrics_views : List String :=
  ["velocity", "completion", "quality", "alignment", "coverage"]

/-- Embedding of get_all_metrics: one prefetch, then every view from the
same sprints and issue map. -/
def get_all_metrics (env : JiraEnv) (board_id : ℤ) (excluded : List String)
    (start_date end_date : Option String) (sprint_count : Option ℕ)
    (serviceLabel : Option String) : AllMetrics :=
  let p := prefetch_all_data env board_id start_date end_date sprint_count
  { velocity := calc_velocity env.parse p.1 p.2
    completion := calc_completion p.1 p.2
    quality := calc_quality env.parse p.1 p.2
    alignment := calc_alignment env.parentOf env.labelsOf p.1 p.2 excluded serviceLabel
    coverage := calc_coverage p.1 p.2 }

/-! ### Time in status (_calculate_time_in_status) -/

/-- The sentinel datetime.min used as the sort key for histories whose
creation date fails to parse (0001-01-01 00:00:00 in seconds before the
epoch). -/
def dtMin : ℤ := -62135596800

/-- is_in_progress_status: falsy names are never in progress; otherwise the
status category of the lower-cased name must be indeterminate.  cats
abstracts the status map built by _get_status_categories. -/
def is_in_progress_status (cats : String → Option String) (s : Option String) : Bool :=
  match s with
  | none => false
  | some name =>
    if name = "" then false
    else ((cats (pyLower name)).getD ("unknown")) == "indeterminate"

/-- A status transition extracted from the changelog. -/
structure Transition where
  time : ℤ
  fromStatus : Option String
  toStatus : Option String
deriving DecidableEq

/-- Histories sorted by parsed creation date (datetime.min when missing or
unparseable), the stable sort Python applies. -/
def sortHistories (parse : String → Option ℤ) (hs : List ChangeHistory) :
    List ChangeHistory :=
  hs.mergeSort (fun a b =>
    ((a.created.bind parse).getD dtMin ≤ (b.created.bind parse).getD dtMin : Bool))

/-- The transitions of one issue: status items of the sorted histories
whose creation date parses. -/
def transitionsOf (parse : String → Option ℤ) (i : Issue) : List Transition :=
  (sortHistories parse i.changelog).flatMap (fun h =>
    h.items.filterMap (fun item =>
      if item.field = "status" then
        match h.created.bind parse with
        | some t => some ⟨t, item.fromString, item.toStr⟩
        | none => none
      else none))

/-- Clip an occupancy interval to the sprint boundaries and keep it only
when positive and the status is an in-progress one; the contribution is the
clipped duration in hours. -/
def clipContrib (cats : String → Option String) (sprintStart sprintEnd : ℤ)
    (status : Option String) (startT endT : ℤ) : List (String × ℚ) :=
  let a := max startT sprintStart
  let b := min endT sprintEnd
  if a < b then
    if is_in_progress_status cats status then
      match status with
      | some s => [(s, ((b - a : ℤ) : ℚ) / 3600)]
      | none => []
    else []
  else []

/-- Contributions of the per-transition loop: each transition charges its
fromStatus from the previous transition (or the creation date, or the
sprint start when unparseable) up to its own time. -/
def transContribs (cats : String → Option String) (sprintStart sprintEnd : ℤ)
    (createdOpt : Option ℤ) (ts : List Transition) : List (String × ℚ) :=
  let starts := createdOpt.getD sprintStart :: ts.map (fun t => t.time)
  (ts.zip starts).flatMap (fun p =>
    clipContrib cats sprintStart sprintEnd p.1.fromStatus p.2 p.1.time)

/-- Contribution of the final status after the last transition, charged up
to the sprint end.  When the current status differs from the last toStatus,
the start falls back to the latest transition into the current status. -/
def finalContrib (cats : String → Option String) (sprintStart sprintEnd : ℤ)
    (current : Option String) (ts : List Transition) : List (String × ℚ) :=
  match ts.getLast? with
  | none => []
  | some last =>
    let transitionStart :=
      if current = last.toStatus then last.time
      else
        match ts.reverse.find? (fun t => t.toStatus = current) with
        | some t => t.time
        | none => last.time
    let a := max transitionStart sprintStart
    if a < sprintEnd then
      if strTruthy current then
        if is_in_progress_status cats current then
          match current with
          | some s => [(s, ((sprintEnd - a : ℤ) : ℚ) / 3600)]
          | none => []
        else []
      else []
    else []

/-- All (status, hours) contributions of one issue inside one sprint: the
no-transition fallback charges the current status from creation to sprint
end; otherwise the per-transition pieces followed by the final status
piece. -/
def issueContribs (parse : String → Option ℤ) (cats : String → Option String)
    (sprintStart sprintEnd : ℤ) (i : Issue) : List (String × ℚ) :=
  let ts := transitionsOf parse i
  if ts = [] then
    if strTruthy i.statusName then
      match i.created.bind parse with
      | some c => clipContrib cats sprintStart sprintEnd i.statusName c sprintEnd
      | none => []
    else []
  else
    transContribs cats sprintStart sprintEnd (i.created.bind parse) ts ++
      finalContrib cats sprintStart sprintEnd i.statusName ts

/-- One step of the status_times accumulation: append the hours to the
entry of the status, creating the entry at the end on first sight. -/
def addContrib (acc : List (String × List ℚ)) (c : String × ℚ) :
    List (String × List ℚ) :=
  if acc.any (fun e => e.1 == c.1) then
    acc.map (fun e => if e.1 == c.1 then (e.1, e.2 ++ [c.2]) else e)
  else acc ++ [(c.1, [c.2])]

/-- status_times of one sprint: fold all contributions in order. -/
def statusTimesOf (contribs : List (String × ℚ)) : List (String × List ℚ) :=
  contribs.foldl addContrib []

/-- One row of statusBreakdown (restricted to the fields the claims are
about; the display statistics avg, median, p90, issue counts and cycle-time
percentages are left out). -/
structure StatusEntry where
  status : String
  totalTimeHours : ℚ
deriving DecidableEq

/-- Per-sprint entry of the time-in-status metrics. -/
structure TimeInStatusEntry where
  sprintId : ℤ
  sprintName : String
  startDate : Option String
  endDate : Option String
  statusBreakdown : List StatusEntry
  bottleneckStatus : Option String
  totalCycleTimeHours : ℚ

/-- Result of _calculate_time_in_status. -/
structure TimeInStatusResult where
  sprints : List TimeInStatusEntry

/-- The time-in-status entry of one sprint whose dates parsed to ss and
se. -/
def timeInStatusEntry (parse : String → Option ℤ) (cats : String → Option String)
    (historicalIssuesOf : ℤ → List Issue) (ss se : ℤ) (s : Sprint) :
    TimeInStatusEntry :=
  let contribs := (historicalIssuesOf s.id).flatMap (issueContribs parse cats ss se)
  let st := statusTimesOf contribs
  let breakdown := st.map (fun e => ({ status := e.1, totalTimeHours := round1 e.2.sum } : StatusEntry))
  let totalCycle := (st.map (fun e => e.2.sum)).sum
  let sortedB := breakdown.mergeSort (fun a b => (b.totalTimeHours ≤ a.totalTimeHours : Bool))
  { sprintId := s.id
    sprintName := s.name
    startDate := s.startDate
    endDate := s.endDate
    statusBreakdown := sortedB
    bottleneckStatus := sortedB.head?.map (fun e => e.status)
    totalCycleTimeHours := round1 totalCycle }

/-- Embedding of _calculate_time_in_status: sprints whose dates fail to
parse are skipped; each remaining sprint is analyzed over its historical
issue set. -/
def calc_time_in_status (parse : String → Option ℤ) (cats : String → Option String)
    (historicalIssuesOf : ℤ → List Issue) (sprints : List Sprint) :
    TimeInStatusResult :=
  { sprints := sprints.filterMap (fun s =>
      match s.startDate.bind parse, s.endDate.bind parse with
      | some ss, some se => some (timeInStatusEntry parse cats historicalIssuesOf ss se s)
      | _, _ => none) }

/-! ### Stateful cache model of the service

The per-instance caches are modelled explicitly: the pure metric functions
above correspond to computations after the caches are warm, while the
definitions below model the cache-checking fetch methods themselves.  The
Python _issues_cache is a single dict whose integer keys hold sprint issue
lists and whose parent_-prefixed string keys hold parent infos; the two
disjoint key namespaces are modelled as two maps.  Each operation returns
its value, the successor state and the number of HTTP requests issued. -/

/-- One entry of the field list API payload. -/
structure FieldInfo where
  name : String
  id : String
  schemaType : Option String
deriving DecidableEq

/-- One entry of the status list API payload. -/
structure StatusInfo where
  name : String
  categoryKey : Option String
deriving DecidableEq

/-- The remote API of one service instance.  statusApi is None when the
status endpoint raises; parentApi merges the no-parent and error cases into
None exactly as _get_issue_parent caches both as None. -/
structure ApiOracle where
  fieldsApi : List FieldInfo
  statusApi : Option (List StatusInfo)
  sprintApi : ℤ → String → List Sprint
  sprintIssuesApi : ℤ → List Issue
  parentApi : String → Option ParentInfo

/-- The four per-instance caches as initialized by the constructor. -/
structure ServiceState where
  story_points_fields_cache : Option (List String)
  sprints_cache : List (String × List Sprint)
  issues_cache : List (ℤ × List Issue)
  parent_cache : List (String × Option ParentInfo)
  status_categories_cache : Option (List (String × String))

/-- The state built by the constructor: every cache empty. -/
def initState : ServiceState :=
  { story_points_fields_cache := none
    sprints_cache := []
    issues_cache := []
    parent_cache := []
    status_categories_cache := none }

/-- The story point field scan of _get_story_points_fields: numeric fields
whose name is exactly Story Points go to the front, other story-point
matches are appended, then the three hardcoded fallbacks not yet present
are appended. -/
def buildSpFields (fields : List FieldInfo) : List String :=
  let scanned := fields.foldl (fun acc f =>
    if f.schemaType ≠ some ("number") then acc
    else if f.name = "Story Points" then f.id :: acc
    else if pyLower f.name = "story points" then acc ++ [f.id]
    else if strContains (pyLower f.name) ("story point") then acc ++ [f.id]
    else acc) []
  ["customfield_10002", "customfield_10016", "customfield_10020"].foldl
    (fun acc fb => if acc.contains fb then acc else acc ++ [fb]) scanned

/-- Stateful embedding of _get_story_points_fields. -/
def get_story_points_fields_s (api : ApiOracle) (st : ServiceState) :
    List String × ServiceState × ℕ :=
  match st.story_points_fields_cache with
  | some v => (v, st, 0)
  | none =>
    let v := buildSpFields api.fieldsApi
    (v, { st with story_points_fields_cache := some v }, 1)

/-- Dict-style upsert on an association list: override the value in place
when the key exists, append otherwise. -/
def assocUpsert (m : List (String × String)) (k v : String) : List (String × String) :=
  if (m.lookup k).isSome then m.map (fun e => if e.1 == k then (k, v) else e)
  else m ++ [(k, v)]

/-- The status map built by _get_status_categories: lower-cased status name
to category key (unknown when the payload lacks one). -/
def buildStatusMap (statuses : List StatusInfo) : List (String × String) :=
  statuses.foldl (fun m s => assocUpsert m (pyLower s.name) (s.categoryKey.getD ("unknown"))) []

/-- Stateful embedding of _get_status_categories: on failure of the status
endpoint the empty map is cached. -/
def get_status_categories_s (api : ApiOracle) (st : ServiceState) :
    List (String × String) × ServiceState × ℕ :=
  match st.status_categories_cache with
  | some v => (v, st, 0)
  | none =>
    match api.statusApi with
    | some statuses =>
      let v := buildStatusMap statuses
      (v, { st with status_categories_cache := some v }, 1)
    | none => ([], { st with status_categories_cache := some [] }, 1)

/-- The representation Python gives an optional date inside an f-string. -/
def optStr (o : Option String) : String := o.getD ("None")

/-- The cache key of _get_sprints. -/
def sprintsCacheKey (board_id : ℤ) (eff : ℕ) (start_date end_date : Option String) :
    String :=
  toString board_id ++ "_" ++ toString eff ++ "_" ++ optStr start_date ++ "_" ++
    optStr end_date

/-- Stateful embedding of _get_sprints. -/
def get_sprints_s (api : ApiOracle) (board_id : ℤ) (limit : ℕ)
    (start_date end_date : Option String) (sprint_count : Option ℕ)
    (st : ServiceState) : List Sprint × ServiceState × ℕ :=
  let eff := effectiveLimit limit sprint_count
  let ckey := sprintsCacheKey board_id eff start_date end_date
  match st.sprints_cache.lookup ckey with
  | some v => (v, st, 0)
  | none =>
    let fetched := fetchPages 50 (by decide) (api.sprintApi board_id ("closed")) 0
    let v := sprintsFromAll fetched.1 eff start_date end_date
    (v, { st with sprints_cache := st.sprints_cache ++ [(ckey, v)] }, fetched.2)

/-- Stateful embedding of _get_sprint_issues: on a cache miss the story
point fields are resolved first (their ids only shape the request payload,
so the value is dropped here), then the issue pages are fetched. -/
def get_sprint_issues_s (api : ApiOracle) (sprint_id : ℤ) (st : ServiceState) :
    List Issue × ServiceState × ℕ :=
  match st.issues_cache.lookup sprint_id with
  | some v => (v, st, 0)
  | none =>
    let spr := get_story_points_fields_s api st
    let fetched := fetchPages 100 (by decide) (api.sprintIssuesApi sprint_id) 0
    (fetched.1,
     { spr.2.1 with issues_cache := spr.2.1.issues_cache ++ [(sprint_id, fetched.1)] },
     spr.2.2 + fetched.2)

/-- Stateful embedding of _get_issue_parent (the parent_ key namespace of
the issues cache). -/
def get_issue_parent_s (api : ApiOracle) (issue_key : String) (st : ServiceState) :
    Option ParentInfo × ServiceState × ℕ :=
  let ckey := ("parent_") ++ issue_key
  match st.parent_cache.lookup ckey with
  | some v => (v, st, 0)
  | none =>
    let v := api.parentApi issue_key
    (v, { st with parent_cache := st.parent_cache ++ [(ckey, v)] }, 1)

/-- One cache state extends another: every cached entry is still cached
with the same value. -/
def cacheExtends (st st2 : ServiceState) : Prop :=
  (∀ v, st.story_points_fields_cache = some v → st2.story_points_fields_cache = some v) ∧
  (∀ k v, st.sprints_cache.lookup k = some v → st2.sprints_cache.lookup k = some v) ∧
  (∀ k v, st.issues_cache.lookup k = some v → st2.issues_cache.lookup k = some v) ∧
  (∀ k v, st.parent_cache.lookup k = some v → st2.parent_cache.lookup k = some v) ∧
  (∀ v, st.status_categories_cache = some v → st2.status_categories_cache = some v)

/-! ### Concrete instances used by the counterexamples and witnesses -/

/-- An issue with every field empty, the base of the concrete fixtures. -/
def blankIssue : Issue :=
  { key := ""
    summary := ""
    resolution := none
    resolutiondate := none
    statusName := none
    issuetypeName := ""
    subtask := false
    parentKey := none
    storyPoints := none
    created := none
    changelog := [] }

/-- Date oracle of the velocity counterexample: day 0 is a Monday, the
string A parses to that midnight, C three days later (3 working days), B
twelve days later (10 working days). -/
def parseFixA : String → Option ℤ := fun s =>
  if s = "A" then some 0
  else if s = "C" then some 259200
  else if s = "B" then some 1036800
  else none

/-- Sprint window of the velocity counterexample: one 3-working-day sprint
and two 10-working-day sprints. -/
def sprintsFixA : List Sprint :=
  [⟨1, "S1", some ("A"), some ("C")⟩,
   ⟨2, "S2", some ("A"), some ("B")⟩,
   ⟨3, "S3", some ("A"), some ("B")⟩]

/-- Issue map of the velocity counterexample: the short sprint completed a
single one-point issue. -/
def issuesFixA : ℤ → List Issue := fun sid =>
  if sid = 1 then
    [{ blankIssue with key := "X-1", resolution := some ("Done"), storyPoints := some 1 }]
  else []

/-- Sprint window of the carryover counterexample: the previous sprint of
the newest one carries the id 0. -/
def sprintsFixB : List Sprint :=
  [⟨5, "B", none, none⟩, ⟨0, "A", none, none⟩]

/-- Issue map of the carryover counterexample: the same issue key X sits in
both sprints. -/
def issuesFixB : ℤ → List Issue := fun sid =>
  if sid = 5 || sid = 0 then [{ blankIssue with key := "X" }] else []

/-- Sprint server of the window counterexample: a single closed sprint. -/
def serverFixC : ℤ → String → List Sprint := fun _ state =>
  if state = "closed" then [⟨1, "S", none, some ("2024-01-10")⟩] else []

/-- Status category oracle of the time-in-status fixtures. -/
def catsFixD : String → Option String := fun s =>
  if s = "to do" then some ("new")
  else if s = "in progress" then some ("indeterminate")
  else none

/-- Date oracle of the time-in-status fixtures: the sprint spans days 0 to
10, the issue is created at sprint start and transitions at day 5. -/
def parseFixD : String → Option ℤ := fun s =>
  if s = "S" then some 0
  else if s = "E" then some 864000
  else if s = "C" then some 0
  else if s = "T1" then some 432000
  else none

/-- The sprint of the time-in-status fixtures. -/
def sprintFixD : Sprint := ⟨1, "S1", some ("S"), some ("E")⟩

/-- The issue of the time-in-status counterexample: it sat in the status
to do for the first five days of the sprint, then in in progress. -/
def issueFixD : Issue :=
  { blankIssue with
      key := "A-1"
      statusName := some ("in progress")
      created := some ("C")
      changelog := [⟨some ("T1"), [⟨"status", some ("to do"), some ("in progress")⟩]⟩] }

/-- Historical issue oracle of the time-in-status counterexample. -/
def histFixD : ℤ → List Issue := fun _ => [issueFixD]

/-- One-sprint window used by several witnesses. -/
def sprintsFixE : List Sprint := [⟨1, "S1", none, none⟩]

/-- Issue map used by the alignment witness: one completed orphan one-point
issue. -/
def issuesFixE : ℤ → List Issue := fun sid =>
  if sid = 1 then
    [{ blankIssue with key := "Y-1", resolution := some ("Done"), storyPoints := some 1 }]
  else []

/-- A parent oracle used by the initiative-walk witness. -/
def parentFixF : String → Option ParentInfo := fun k =>
  if k = "ST-1" then some ⟨"EP-1", "epic", "EP", "Epic"⟩
  else if k = "EP-1" then some ⟨"IN-1", "initiative", "IN", "Initiative"⟩
  else none

/-- The api oracle of the cache witness. -/
def apiFixG : ApiOracle :=
  { fieldsApi := []
    statusApi := none
    sprintApi := fun _ _ => []
    sprintIssuesApi := fun _ => []
    parentApi := fun k => if k = "K-1" then some ⟨"P-1", "parent", "P", "Epic"⟩ else none }

/-- The Jira environment of the aggregator witness. -/
def envFixH : JiraEnv :=
  { parse := fun _ => none
    server := fun _ _ => []
    issuesOf := fun _ => []
    historicalIssuesOf := fun _ => []
    statusCategory := fun _ => none
    parentOf := fun _ => none
    labelsOf := fun _ => [] }

/-! ### Helper lemmas: rounding -/

theorem rhe_of_floor (q : ℚ) (m : ℤ) (hm : ⌊q⌋ = m) :
    rhe q = if q - m < 1/2 then m
      else if (1 : ℚ)/2 < q - m then m + 1
      else if m % 2 = 0 then m else m + 1 := by
  unfold rhe
  rw [hm]

theorem rhe_intCast (n : ℤ) : rhe (n : ℚ) = n := by
  rw [rhe_of_floor (n : ℚ) n (Int.floor_intCast n)]
  norm_num

/-- Round half to even satisfies the complement identity against any even
integer: the two ties round to opposite sides. -/
theorem rhe_add_complement (a : ℚ) (n : ℤ) (hn : n % 2 = 0) :
    rhe a + rhe ((n : ℚ) - a) = n := by
  have hfl : (⌊a⌋ : ℚ) ≤ a := Int.floor_le a
  have hfu : a < ⌊a⌋ + 1 := Int.lt_floor_add_one a
  set f := ⌊a⌋ with hf
  by_cases hz : a = (f : ℚ)
  · have h2 : (n : ℚ) - a = ((n - f : ℤ) : ℚ) := by rw [hz]; push_cast; ring
    have h3 : rhe a = f := by rw [hz, rhe_intCast]
    rw [h3, h2, rhe_intCast]
    omega
  · have hrpos : 0 < a - (f : ℚ) := by
      rcases lt_or_eq_of_le hfl with h | h
      · linarith
      · exact absurd h.symm hz
    have hr1 : a - (f : ℚ) < 1 := by linarith
    have hsplit : (n : ℚ) - a = ((n - f - 1 : ℤ) : ℚ) + (1 - (a - (f : ℚ))) := by
      push_cast; ring
    have hfl2 : ⌊(n : ℚ) - a⌋ = n - f - 1 := by
      rw [hsplit, Int.floor_int_add]
      have h10 : ⌊(1 : ℚ) - (a - (f : ℚ))⌋ = 0 := by
        apply Int.floor_eq_zero_iff.mpr
        simp only [Set.mem_Ico]
        constructor
        · linarith
        · linarith
      omega
    have hc : ((n : ℚ)) - a - ((n - f - 1 : ℤ) : ℚ) = 1 - (a - (f : ℚ)) := by
      push_cast; ring
    rcases lt_trichotomy (a - (f : ℚ)) (1/2) with h | h | h
    · have v1 : rhe a = f := by
        rw [rhe_of_floor a f rfl, if_pos h]
      have v2 : rhe ((n : ℚ) - a) = n - f - 1 + 1 := by
        rw [rhe_of_floor ((n : ℚ) - a) (n - f - 1) hfl2, hc,
          if_neg (by linarith), if_pos (by linarith)]
      rw [v1, v2]
      omega
    · by_cases hp : f % 2 = 0
      · have v1 : rhe a = f := by
          rw [rhe_of_floor a f rfl, if_neg (by linarith), if_neg (by linarith),
            if_pos hp]
        have v2 : rhe ((n : ℚ) - a) = n - f - 1 + 1 := by
          rw [rhe_of_floor ((n : ℚ) - a) (n - f - 1) hfl2, hc,
            if_neg (by linarith), if_neg (by linarith), if_neg (by omega)]
        rw [v1, v2]
        omega
      · have v1 : rhe a = f + 1 := by
          rw [rhe_of_floor a f rfl, if_neg (by linarith), if_neg (by linarith),
            if_neg hp]
        have v2 : rhe ((n : ℚ) - a) = n - f - 1 := by
          rw [rhe_of_floor ((n : ℚ) - a) (n - f - 1) hfl2, hc,
            if_neg (by linarith), if_neg (by linarith), if_pos (by omega)]
        rw [v1, v2]
        omega
    · have v1 : rhe a = f + 1 := by
        rw [rhe_of_floor a f rfl, if_neg (by linarith), if_pos h]
      have v2 : rhe ((n : ℚ) - a) = n - f - 1 := by
        rw [rhe_of_floor ((n : ℚ) - a) (n - f - 1) hfl2, hc, if_pos (by linarith)]
      rw [v1, v2]
      omega

/-- The rounded percentage pair of the alignment entries sums to exactly
100. -/
theorem round1_complement (x : ℚ) : round1 x + round1 (100 - x) = 100 := by
  unfold round1
  have h : (100 - x) * 10 = ((1000 : ℤ) : ℚ) - x * 10 := by push_cast; ring
  rw [h]
  have hc := rhe_add_complement (x * 10) 1000 (by decide)
  rw [div_add_div_same]
  rw [show ((rhe (x * 10) : ℚ) + (rhe (((1000 : ℤ) : ℚ) - x * 10) : ℚ))
        = ((rhe (x * 10) + rhe (((1000 : ℤ) : ℚ) - x * 10) : ℤ) : ℚ) by push_cast; ring]
  rw [hc]
  norm_num

/-! ### Helper lemmas: the string order and sorting -/

theorem charsLt_asymm : ∀ (x y : List Char), charsLt x y = true → charsLt y x = false := by
  intro x
  induction x with
  | nil =>
    intro y h
    cases y with
    | nil => simp [charsLt] at h
    | cons b bs => simp [charsLt]
  | cons a as ih =>
    intro y h
    cases y with
    | nil => simp [charsLt] at h
    | cons b bs =>
      simp only [charsLt] at h ⊢
      by_cases h1 : a.toNat < b.toNat
      · rw [if_neg (by omega), if_pos h1]
      · by_cases h2 : b.toNat < a.toNat
        · rw [if_neg h1, if_pos h2] at h
          exact absurd h (by simp)
        · rw [if_neg h1, if_neg h2] at h
          rw [if_neg h2, if_neg h1]
          exact ih bs h

theorem charsLt_trans :
    ∀ (x y z : List Char), charsLt x y = true → charsLt y z = true → charsLt x z = true := by
  intro x
  induction x with
  | nil =>
    intro y z hxy hyz
    cases y with
    | nil => simp [charsLt] at hxy
    | cons b bs =>
      cases z with
      | nil => simp [charsLt] at hyz
      | cons c cs => simp [charsLt]
  | cons a as ih =>
    intro y z hxy hyz
    cases y with
    | nil => simp [charsLt] at hxy
    | cons b bs =>
      cases z with
      | nil => simp [charsLt] at hyz
      | cons c cs =>
        simp only [charsLt] at hxy hyz ⊢
        by_cases h1 : a.toNat < b.toNat
        · by_cases h2 : b.toNat < c.toNat
          · rw [if_pos (by omega)]
          · by_cases h3 : c.toNat < b.toNat
            · rw [if_neg h2, if_pos h3] at hyz
              exact absurd hyz (by simp)
            · have : b.toNat = c.toNat := by omega
              rw [if_pos (by omega)]
        · by_cases h4 : b.toNat < a.toNat
          · rw [if_neg h1, if_pos h4] at hxy
            exact absurd hxy (by simp)
          · have hab : a.toNat = b.toNat := by omega
            rw [if_neg h1, if_neg h4] at hxy
            by_cases h2 : b.toNat < c.toNat
            · rw [if_pos (by omega)]
            · by_cases h3 : c.toNat < b.toNat
              · rw [if_neg h2, if_pos h3] at hyz
                exact absurd hyz (by simp)
              · rw [if_neg h2, if_neg h3] at hyz
                rw [if_neg (by omega), if_neg (by omega)]
                exact ih bs cs hxy hyz

theorem charsLt_connex :
    ∀ (x y : List Char), charsLt x y = false → charsLt y x = false → x = y := by
  intro x
  induction x with
  | nil =>
    intro y hxy _
    cases y with
    | nil => rfl
    | cons b bs => simp [charsLt] at hxy
  | cons a as ih =>
    intro y hxy hyx
    cases y with
    | nil => simp [charsLt] at hyx
    | cons b bs =>
      simp only [charsLt] at hxy hyx
      by_cases h1 : a.toNat < b.toNat
      · rw [if_pos h1] at hxy
        exact absurd hxy (by simp)
      · by_cases h2 : b.toNat < a.toNat
        · rw [if_pos h2] at hyx
          exact absurd hyx (by simp)
        · rw [if_neg h1, if_neg h2] at hxy
          rw [if_neg h2, if_neg h1] at hyx
          have hab : a = b := by
            have hn : a.toNat = b.toNat := by omega
            have hv : a.val = b.val := UInt32.toNat.inj hn
            exact Char.eq_of_val_eq hv
          rw [hab, ih bs hxy hyx]

theorem strLt_false_trans (x y z : String) (hxy : strLt x y = false)
    (hyz : strLt y z = false) : strLt x z = false := by
  unfold strLt at hxy hyz ⊢
  by_cases hxz : charsLt x.data z.data = true
  · by_cases hyx : charsLt y.data x.data = true
    · have := charsLt_trans _ _ _ hyx hxz
      rw [this] at hyz
      exact absurd hyz (by simp)
    · have heq := charsLt_connex _ _ hxy (by
        cases hc : charsLt y.data x.data
        · rfl
        · exact absurd hc (by simp [hyx]))
      rw [← heq] at hyz
      rw [hyz] at hxz
      exact absurd hxz (by simp)
  · cases hc : charsLt x.data z.data
    · rfl
    · exact absurd hc (by simp [hxz])

/-- The descending end-date sort is pairwise non-ascending. -/
theorem sortSprintsDesc_pairwise (l : List Sprint) :
    List.Pairwise (fun a b => strLt (sprintEndKey a) (sprintEndKey b) = false)
      (sortSprintsDesc l) := by
  have h := @List.sorted_mergeSort Sprint
    (fun a b : Sprint => !(strLt (sprintEndKey a) (sprintEndKey b)))
    (fun a b c hab hbc => by
      simp only [Bool.not_eq_true'] at hab hbc ⊢
      exact strLt_false_trans _ _ _ hab hbc)
    (fun a b => by
      simp only [Bool.not_eq_true', Bool.or_eq_true]
      by_cases hab : strLt (sprintEndKey a) (sprintEndKey b) = true
      · right
        exact charsLt_asymm _ _ hab
      · left
        cases hc : strLt (sprintEndKey a) (sprintEndKey b)
        · rfl
        · exact absurd hc hab)
    l
  exact h.imp (fun hab => by simpa using hab)

/-- The merge sort keeps exactly the elements of the input. -/
theorem sortSprintsDesc_mem (l : List Sprint) (s : Sprint) :
    s ∈ sortSprintsDesc l ↔ s ∈ l :=
  (List.mergeSort_perm l _).mem_iff

/-! ### Helper lemmas: association lists -/

theorem lookup_append_some {α β : Type} [BEq α] (l l2 : List (α × β)) (k : α) (v : β)
    (h : List.lookup k l = some v) : List.lookup k (l ++ l2) = some v := by
  induction l with
  | nil => simp [List.lookup] at h
  | cons e t ih =>
    simp only [List.lookup, List.cons_append] at h ⊢
    cases hk : (k == e.1)
    · rw [hk] at h
      exact ih h
    · rw [hk] at h
      exact h

theorem lookup_append_none {α β : Type} [BEq α] (l l2 : List (α × β)) (k : α)
    (h : List.lookup k l = none) : List.lookup k (l ++ l2) = List.lookup k l2 := by
  induction l with
  | nil => simp
  | cons e t ih =>
    simp only [List.lookup, List.cons_append] at h ⊢
    cases hk : (k == e.1)
    · rw [hk] at h
      exact ih h
    · rw [hk] at h
      exact absurd h (by simp)

/-! ### Helper lemmas: working days -/

theorem countWeekdaysFrom_eq_spec (n : ℕ) :
    ∀ d : ℤ, countWeekdaysFrom n d =
      (List.range n).countP (fun k : ℕ => decide ((d + (k : ℤ)).emod 7 < 5)) := by
  induction n with
  | zero => intro d; simp [countWeekdaysFrom]
  | succ m ih =>
    intro d
    rw [countWeekdaysFrom, List.range_succ_eq_map, List.countP_cons, List.countP_map]
    have hc : (fun k : ℕ => decide ((d + (k : ℤ)).emod 7 < 5)) ∘ Nat.succ
        = fun k : ℕ => decide (((d + 1) + (k : ℤ)).emod 7 < 5) := by
      funext k
      simp only [Function.comp]
      congr 1
      push_cast
      ring_nf
    rw [hc, ← ih (d + 1)]
    simp only [Nat.cast_zero, add_zero]
    by_cases hd : d.emod 7 < 5
    · rw [if_pos hd, if_pos (by simpa using hd)]
      omega
    · rw [if_neg hd, if_neg (by simpa using hd)]
      omega

/-- count_working_days never returns zero. -/
theorem count_working_days_pos (parse : String → Option ℤ) (sd ed : Option String) :
    0 < count_working_days parse sd ed := by
  unfold count_working_days
  split
  case _ s e =>
    split
    · omega
    · split
      case _ st en =>
        dsimp only
        split
        · assumption
        · omega
      · omega
      · omega
  · omega
  · omega

/-! ### Claim C10 -/

/-- C10: for all inputs _count_working_days returns a positive integer: the
number of weekdays (Monday through Friday) in the half-open interval from
the start date up to but excluding the end date when that count is
positive, and 10 whenever either date is missing (or empty), unparseable,
or the weekday count is zero; consequently the per-sprint working-day
divisor of the velocity normalization is never zero. -/
theorem C10_count_working_days (parse : String → Option ℤ) :
    (∀ sd ed, 0 < count_working_days parse sd ed) ∧
    (∀ s e st en, s ≠ "" → e ≠ "" → parse s = some st → parse e = some en →
      (0 < weekdaySpec (dayOf st) (dayOf en) →
        count_working_days parse (some s) (some e) = weekdaySpec (dayOf st) (dayOf en)) ∧
      (weekdaySpec (dayOf st) (dayOf en) = 0 →
        count_working_days parse (some s) (some e) = 10)) ∧
    (∀ ed, count_working_days parse none ed = 10) ∧
    (∀ sd, count_working_days parse sd none = 10) ∧
    (∀ e, count_working_days parse (some ("")) (some e) = 10) ∧
    (∀ s, count_working_days parse (some s) (some ("")) = 10) ∧
    (∀ s e, parse s = none ∨ parse e = none →
      count_working_days parse (some s) (some e) = 10) ∧
    (∀ sprints sprintIssues e,
      e ∈ (calc_velocity parse sprints sprintIssues).sprints → 0 < e.workingDays) := by
  refine ⟨count_working_days_pos parse, ?_, ?_, ?_, ?_, ?_, ?_, ?_⟩
  · intro s e st en hs he hst hen
    have hred : count_working_days parse (some s) (some e)
        = (if 0 < countWeekdaysFrom (dayOf en - dayOf st).toNat (dayOf st) then
            countWeekdaysFrom (dayOf en - dayOf st).toNat (dayOf st) else 10) := by
      simp only [count_working_days]
      rw [if_neg (by simp [hs, he]), hst, hen]
    have hspec : countWeekdaysFrom (dayOf en - dayOf st).toNat (dayOf st)
        = weekdaySpec (dayOf st) (dayOf en) := by
      rw [countWeekdaysFrom_eq_spec]
      rfl
    constructor
    · intro hpos
      rw [hred, hspec, if_pos hpos]
    · intro hzero
      rw [hred, hspec, hzero]
      norm_num
  · intro ed
    simp [count_working_days]
  · intro sd
    rcases sd with _ | s <;> simp [count_working_days]
  · intro e
    simp [count_working_days]
  · intro s
    simp [count_working_days]
  · intro s e hor
    simp only [count_working_days]
    by_cases hse : s = "" ∨ e = ""
    · rw [if_pos (by simpa using hse)]
    · rw [if_neg (by simpa using hse)]
      rcases hor with h | h
      · rw [h]
      · rw [h]
        rcases parse s with _ | st <;> rfl
  · intro sprints sprintIssues e he
    have hmem : e ∈ sprints.map (velocityEntry parse sprintIssues
        (standardSprintDays (sprints.map (fun t =>
          count_working_days parse t.startDate t.endDate)))) := he
    rcases List.mem_map.mp hmem with ⟨s, _, hs⟩
    have hwd : e.workingDays = count_working_days parse s.startDate s.endDate := by
      rw [← hs]
      rfl
    rw [hwd]
    exact count_working_days_pos parse s.startDate s.endDate

/-- Witness for C10 at a concrete date oracle: a three-day span yields 3
working days, an unparseable start date yields the default 10. -/
theorem C10_witness :
    count_working_days parseFixA (some ("A")) (some ("C")) = 3 ∧
    count_working_days parseFixA (some ("Z")) (some ("C")) = 10 := by
  have h := C10_count_working_days parseFixA
  constructor
  · have hw : weekdaySpec (dayOf 0) (dayOf 259200) = 3 := by decide
    have h2 := (h.2.1 "A" "C" 0 259200 (by decide) (by decide)
      (by simp [parseFixA]) (by simp [parseFixA])).1
    rw [h2 (by rw [hw]; omega), hw]
  · exact h.2.2.2.2.2.2.1 "Z" "C" (Or.inl (by simp [parseFixA]))

/-! ### Claim C5 -/

/-- The pagination loop gathers exactly the remainder of the server
collection. -/
theorem fetchPages_fst {α : Type} (pageSize : ℕ) (hp : 0 < pageSize) (server : List α) :
    ∀ startAt, (fetchPages pageSize hp server startAt).1 = server.drop startAt := by
  have H : ∀ fuel startAt, server.length - startAt ≤ fuel →
      (fetchPages pageSize hp server startAt).1 = server.drop startAt := by
    intro fuel
    induction fuel with
    | zero =>
      intro startAt hst
      have hdrop : server.drop startAt = [] := by
        apply List.eq_nil_of_length_eq_zero
        rw [List.length_drop]
        omega
      rw [fetchPages, hdrop]
      rw [dif_pos (by simpa using hp)]
      simp
    | succ n ih =>
      intro startAt hst
      rw [fetchPages]
      by_cases h : ((server.drop startAt).take pageSize).length < pageSize
      · rw [dif_pos h]
        apply List.take_of_length_le
        simp only [List.length_take, List.length_drop] at h ⊢
        omega
      · rw [dif_neg h]
        have hlen : pageSize ≤ server.length - startAt := by
          simp only [List.length_take, List.length_drop] at h
          omega
        simp only
        rw [ih (startAt + pageSize) (by omega)]
        rw [show server.drop (startAt + pageSize) = (server.drop startAt).drop pageSize by
          rw [List.drop_drop]]
        exact List.take_append_drop pageSize (server.drop startAt)
  exact fun startAt => H (server.length - startAt) startAt le_rfl

/-- C5 (amended): _get_sprints requests only sprints in state closed,
orders them by end date descending (non-ascending end-date strings); when
no truthy date bound is supplied it returns the effective-limit-most-recent
prefix of the sorted closed sprints, where the effective limit is
sprint_count when given and nonzero and the default limit otherwise; when a
truthy date bound is supplied it returns exactly the closed sprints whose
end date lies in the range. -/
theorem C5_get_sprints (server : ℤ → String → List Sprint) (board_id : ℤ) (limit : ℕ)
    (sd ed : Option String) (sc : Option ℕ) :
    (∀ s, s ∈ get_sprints server board_id limit sd ed sc →
      s ∈ server board_id ("closed")) ∧
    List.Pairwise (fun a b => strLt (sprintEndKey a) (sprintEndKey b) = false)
      (get_sprints server board_id limit sd ed sc) ∧
    ((strTruthy sd || strTruthy ed) = false →
      get_sprints server board_id limit sd ed sc
        = (sortSprintsDesc (server board_id ("closed"))).take (effectiveLimit limit sc) ∧
      (get_sprints server board_id limit sd ed sc).length ≤ effectiveLimit limit sc) ∧
    ((strTruthy sd || strTruthy ed) = true →
      ∀ s, s ∈ get_sprints server board_id limit sd ed sc ↔
        s ∈ server board_id ("closed") ∧ inDateRange sd ed s = true) := by
  have hall : (fetchPages 50 (by decide) (server board_id ("closed")) 0).1
      = server board_id ("closed") := by
    rw [fetchPages_fst]
    exact List.drop_zero _
  have hmain : get_sprints server board_id limit sd ed sc
      = sprintsFromAll (server board_id ("closed")) (effectiveLimit limit sc) sd ed := by
    unfold get_sprints
    rw [hall]
  refine ⟨?_, ?_, ?_, ?_⟩
  · intro s hs
    rw [hmain] at hs
    unfold sprintsFromAll at hs
    by_cases ht : (strTruthy sd || strTruthy ed) = true
    · rw [if_pos ht] at hs
      exact (sortSprintsDesc_mem _ s).mp ((List.filter_sublist _).subset hs)
    · rw [if_neg ht] at hs
      exact (sortSprintsDesc_mem _ s).mp ((List.take_sublist _ _).subset hs)
  · rw [hmain]
    unfold sprintsFromAll
    by_cases ht : (strTruthy sd || strTruthy ed) = true
    · rw [if_pos ht]
      exact List.Pairwise.sublist (List.filter_sublist _) (sortSprintsDesc_pairwise _)
    · rw [if_neg ht]
      exact List.Pairwise.sublist (List.take_sublist _ _) (sortSprintsDesc_pairwise _)
  · intro ht
    have ht2 : ¬((strTruthy sd || strTruthy ed) = true) := by
      rw [ht]
      simp
    constructor
    · rw [hmain]
      unfold sprintsFromAll
      rw [if_neg ht2]
    · rw [hmain]
      unfold sprintsFromAll
      rw [if_neg ht2, List.length_take]
      omega
  · intro ht s
    rw [hmain]
    unfold sprintsFromAll
    rw [if_pos ht, List.mem_filter, sortSprintsDesc_mem]

/-- C5 counterexample: with sprint_count 0 the claim promises at most zero
sprints, but the service falls back to the default limit of 6 and returns
the single closed sprint. -/
theorem C5_counterexample :
    (get_sprints serverFixC 7 6 none none (some 0)).length = 1 ∧ ¬((1 : ℕ) ≤ 0) := by
  constructor
  · have hall : (fetchPages 50 (by decide) (serverFixC 7 ("closed")) 0).1
        = serverFixC 7 ("closed") := by
      rw [fetchPages_fst]
      exact List.drop_zero _
    show (sprintsFromAll (fetchPages 50 (by decide) (serverFixC 7 ("closed")) 0).1
      (effectiveLimit 6 (some 0)) none none).length = 1
    rw [hall]
    simp [sprintsFromAll, sortSprintsDesc, serverFixC, effectiveLimit, strTruthy,
      List.mergeSort]
  · decide

/-- Witness for C5: with a truthy sprint_count of 2 the theorem gives the
sorted two-element prefix. -/
theorem C5_witness :
    get_sprints serverFixC 7 6 none none (some 2)
      = (sortSprintsDesc (serverFixC 7 ("closed"))).take (effectiveLimit 6 (some 2)) ∧
    (get_sprints serverFixC 7 6 none none (some 2)).length ≤ effectiveLimit 6 (some 2) :=
  (C5_get_sprints serverFixC 7 6 none none (some 2)).2.2.1 (by rfl)

/-! ### Claims C9 and C4 -/

/-- C9: in every carryover entry each issue is classified as exactly one of
carryover or new, so carryoverCount plus newIssuesCount equals
totalIssues. -/
theorem C9_carryover_partition (sprints : List Sprint) (sprintIssues : ℤ → List Issue) :
    ∀ e ∈ (calc_sprint_carryover sprints sprintIssues).sprints,
      e.carryoverCount + e.newIssuesCount = e.totalIssues := by
  intro e he
  rcases List.mem_map.mp he with ⟨p, _, hp⟩
  have h1 : (carrySprintEntry sprints sprintIssues p.1 p.2).carryoverCount
      = ((sprintIssues p.2.id).filter (wasInPrevious sprints sprintIssues p.1)).length := by
    show (((sprintIssues p.2.id).filter (wasInPrevious sprints sprintIssues p.1)).map
      (carryIssueData sprints sprintIssues)).length = _
    rw [List.length_map]
  have h2 : (carrySprintEntry sprints sprintIssues p.1 p.2).newIssuesCount
      = ((sprintIssues p.2.id).filter
          (fun i => !wasInPrevious sprints sprintIssues p.1 i)).length := by
    show (((sprintIssues p.2.id).filter _).map (carryIssueData sprints sprintIssues)).length = _
    rw [List.length_map]
  have h3 : (carrySprintEntry sprints sprintIssues p.1 p.2).totalIssues
      = (sprintIssues p.2.id).length := rfl
  rw [← hp, h1, h2, h3]
  exact (List.length_eq_length_filter_add _).symm

/-- Witness for C9 on the two-sprint fixture. -/
theorem C9_witness :
    (carrySprintEntry sprintsFixB issuesFixB 0 ⟨5, "B", none, none⟩).carryoverCount +
      (carrySprintEntry sprintsFixB issuesFixB 0 ⟨5, "B", none, none⟩).newIssuesCount =
      (carrySprintEntry sprintsFixB issuesFixB 0 ⟨5, "B", none, none⟩).totalIssues := by
  have h := C9_carryover_partition sprintsFixB issuesFixB
  exact h _ (List.mem_map.mpr ⟨(0, ⟨5, "B", none, none⟩), by decide, rfl⟩)

theorem historyOf_contains (sprints : List Sprint) (sprintIssues : ℤ → List Issue)
    (k : String) (pid : ℤ) :
    (historyOf sprints sprintIssues k).contains pid = true ↔
      ∃ t ∈ sprints, t.id = pid ∧ k ∈ (sprintIssues t.id).map Issue.key := by
  unfold historyOf
  rw [List.elem_iff, List.mem_flatMap]
  constructor
  · rintro ⟨t, ht, hmem⟩
    rcases List.mem_map.mp hmem with ⟨x, hx, hid⟩
    rcases List.mem_filter.mp hx with ⟨hxl, hxk⟩
    refine ⟨t, ht, hid, ?_⟩
    exact List.mem_map.mpr ⟨x, hxl, by simpa using hxk⟩
  · rintro ⟨t, ht, hid, hk⟩
    rcases List.mem_map.mp hk with ⟨x, hxl, hxk⟩
    refine ⟨t, ht, ?_⟩
    exact List.mem_map.mpr ⟨x, List.mem_filter.mpr ⟨hxl, by simpa using hxk⟩, hid⟩

theorem wasInPrevious_iff (sprints : List Sprint) (sprintIssues : ℤ → List Issue)
    (idx : ℕ) (iss : Issue) :
    wasInPrevious sprints sprintIssues idx iss = true ↔
      ∃ prev, sprints.get? (idx + 1) = some prev ∧ prev.id ≠ 0 ∧
        iss.key ∈ (sprintIssues prev.id).map Issue.key := by
  unfold wasInPrevious
  cases hg : sprints.get? (idx + 1) with
  | none => simp
  | some prev =>
    simp only [Bool.and_eq_true, bne_iff_ne, ne_eq]
    constructor
    · rintro ⟨hne, hc⟩
      refine ⟨prev, rfl, hne, ?_⟩
      rcases (historyOf_contains sprints sprintIssues iss.key prev.id).mp hc
        with ⟨t, _, hid, hk⟩
      rw [hid] at hk
      exact hk
    · rintro ⟨prev2, hp2, hne, hk⟩
      injection hp2 with heq
      rw [← heq] at hne hk
      refine ⟨hne, ?_⟩
      exact (historyOf_contains sprints sprintIssues iss.key prev.id).mpr
        ⟨prev, List.get?_mem hg, rfl, hk⟩

/-- Counting a key among the mapped keys counts the issues carrying it. -/
theorem count_map_key (l : List Issue) (k : String) :
    (l.map Issue.key).count k = l.countP (fun i => i.key == k) := by
  induction l with
  | nil => simp
  | cons b t ih => simp only [List.map_cons, List.count_cons, List.countP_cons, ih]

/-- The per-sprint count of the history of a key equals the number of
window sprints containing the key, given per-sprint key uniqueness. -/
theorem historyOf_length (sprints : List Sprint) (sprintIssues : ℤ → List Issue)
    (k : String)
    (hnd : ∀ t ∈ sprints, ((sprintIssues t.id).map Issue.key).Nodup) :
    (historyOf sprints sprintIssues k).length =
      (sprints.filter (fun t => (sprintIssues t.id).any (fun x => x.key == k))).length := by
  unfold historyOf
  induction sprints with
  | nil => simp
  | cons t rest ih =>
    have hndr : ∀ u ∈ rest, ((sprintIssues u.id).map Issue.key).Nodup := by
      intro u hu
      exact hnd u (List.mem_cons_of_mem t hu)
    simp only [List.flatMap_cons, List.length_append, List.filter_cons]
    rw [ih hndr]
    have hlen : (((sprintIssues t.id).filter (fun i => i.key == k)).map
        (fun _ => t.id)).length
        = if (sprintIssues t.id).any (fun x => x.key == k) = true then 1 else 0 := by
      rw [List.length_map, ← List.countP_eq_length_filter, ← count_map_key]
      by_cases hany : (sprintIssues t.id).any (fun x => x.key == k) = true
      · rcases List.any_eq_true.mp hany with ⟨x, hx, hxk⟩
        have hmem : k ∈ (sprintIssues t.id).map Issue.key :=
          List.mem_map.mpr ⟨x, hx, by simpa using hxk⟩
        rw [if_pos hany]
        exact List.count_eq_one_of_mem (hnd t (List.mem_cons_self t rest)) hmem
      · have hmem : k ∉ (sprintIssues t.id).map Issue.key := by
          intro hk
          rcases List.mem_map.mp hk with ⟨x, hx, hxk⟩
          exact hany (List.any_eq_true.mpr ⟨x, hx, by simpa using hxk⟩)
        rw [if_neg hany, List.count_eq_zero.mpr hmem]
    rw [hlen]
    by_cases hc : (sprintIssues t.id).any (fun x => x.key == k) = true
    · rw [if_pos hc, if_pos (by simpa using hc), List.length_cons]
      omega
    · rw [if_neg hc, if_neg (by simpa using hc)]
      omega

/-- C4 (amended): in every carryover entry an issue is classified as
carryover exactly when the immediately preceding sprint of the window
exists, has a truthy (nonzero) id, and contains the issue; the count of
repeat offenders is the number of issues of the sprint appearing in three
or more sprints of the window.  The claim as frozen omits the nonzero-id
condition, which the Python truthiness check imposes. -/
theorem C4_carryover_classification (sprints : List Sprint)
    (sprintIssues : ℤ → List Issue) (i : ℕ) (s : Sprint)
    (hi : sprints.get? i = some s)
    (hnd : ∀ t ∈ sprints, ((sprintIssues t.id).map Issue.key).Nodup) :
    ∃ e, (calc_sprint_carryover sprints sprintIssues).sprints.get? i = some e ∧
      (∀ iss ∈ sprintIssues s.id,
        (carryIssueData sprints sprintIssues iss ∈ e.carryoverIssues ↔
          ∃ prev, sprints.get? (i + 1) = some prev ∧ prev.id ≠ 0 ∧
            iss.key ∈ (sprintIssues prev.id).map Issue.key)) ∧
      e.repeatOffendersCount =
        ((sprintIssues s.id).filter (fun iss =>
          3 ≤ (sprints.filter (fun t =>
            (sprintIssues t.id).any (fun x => x.key == iss.key))).length)).length := by
  have hs : s ∈ sprints := List.get?_mem hi
  have hkeys : ((sprintIssues s.id).map Issue.key).Nodup := hnd s hs
  refine ⟨carrySprintEntry sprints sprintIssues i s, ?_, ?_, ?_⟩
  · show (sprints.enum.map _).get? i = _
    rw [List.get?_eq_getElem?, List.getElem?_map, List.getElem?_enum,
      ← List.get?_eq_getElem?, hi]
    rfl
  · intro iss hiss
    have hmm : (carrySprintEntry sprints sprintIssues i s).carryoverIssues
        = sortBySprintCountDesc
            (((sprintIssues s.id).filter (wasInPrevious sprints sprintIssues i)).map
              (carryIssueData sprints sprintIssues)) := rfl
    rw [hmm]
    unfold sortBySprintCountDesc
    rw [(List.mergeSort_perm _ _).mem_iff]
    constructor
    · intro hmem
      rcases List.mem_map.mp hmem with ⟨j, hjf, hmk⟩
      rcases List.mem_filter.mp hjf with ⟨hjl, hjp⟩
      have hkey : j.key = iss.key := congrArg CarryIssueData.key hmk
      have hji : j = iss := List.inj_on_of_nodup_map hkeys hjl hiss hkey
      rw [hji] at hjp
      exact (wasInPrevious_iff sprints sprintIssues i iss).mp hjp
    · intro hspec
      have hp := (wasInPrevious_iff sprints sprintIssues i iss).mpr hspec
      exact List.mem_map.mpr ⟨iss, List.mem_filter.mpr ⟨hiss, hp⟩, rfl⟩
  · have hrep : (carrySprintEntry sprints sprintIssues i s).repeatOffendersCount
        = (((sprintIssues s.id).filter (fun iss =>
            3 ≤ (historyOf sprints sprintIssues iss.key).length)).map
              (carryIssueData sprints sprintIssues)).length := rfl
    rw [hrep, List.length_map]
    congr 1
    apply List.filter_congr
    intro iss _
    rw [historyOf_length sprints sprintIssues iss.key hnd]

/-- C4 counterexample: the issue X sits in both window sprints, and the
second (immediately preceding) sprint carries the id 0; the entry of the
newest sprint classifies X as new (carryoverCount 0 and empty carryover
list), although X appears in the immediately preceding sprint, because the
Python truthiness test on the previous sprint id conflates 0 with
absence. -/
theorem C4_counterexample :
    ((calc_sprint_carryover sprintsFixB issuesFixB).sprints.map
      (fun e => (e.carryoverCount, e.newIssuesCount))) = [(0, 1), (0, 1)] ∧
    (issuesFixB 0).map Issue.key = [("X")] ∧
    (issuesFixB 5).map Issue.key = [("X")] ∧
    sprintsFixB.map Sprint.id = [5, 0] := by
  refine ⟨?_, by decide, by decide, by decide⟩
  decide

/-- Witness for C4 on the two-sprint fixture: the repeat-offender count of
the newest entry matches the spec-side count. -/
theorem C4_witness :
    (carrySprintEntry sprintsFixB issuesFixB 0 ⟨5, "B", none, none⟩).repeatOffendersCount =
      ((issuesFixB 5).filter (fun iss =>
        3 ≤ (sprintsFixB.filter (fun t =>
          (issuesFixB t.id).any (fun x => x.key == iss.key))).length)).length := by
  have h := C4_carryover_classification sprintsFixB issuesFixB 0 ⟨5, "B", none, none⟩
    (by decide) (by decide)
  rcases h with ⟨e, he, _, hrep⟩
  have hent : (calc_sprint_carryover sprintsFixB issuesFixB).sprints.get? 0
      = some (carrySprintEntry sprintsFixB issuesFixB 0 ⟨5, "B", none, none⟩) := rfl
  rw [hent] at he
  injection he with he2
  rw [he2]
  exact hrep

/-! ### Claim C1 -/

/-- The accumulation of _calculate_velocity equals the spec-side sum: the
skipped falsy point values are exactly None (no value) and 0 (adds
nothing). -/
theorem completedPointsOf_eq_spec (issues : List Issue) :
    completedPointsOf issues = completedPointsSpec issues := by
  unfold completedPointsOf completedPointsSpec
  suffices H : ∀ (l : List Issue) (acc : ℚ),
      l.foldl (fun acc i =>
        if is_completed i then
          match i.storyPoints with
          | some p => if p ≠ 0 then acc + p else acc
          | none => acc
        else acc) acc
      = acc + ((l.filter (fun i => is_completed i)).filterMap Issue.storyPoints).sum by
    rw [H issues 0, zero_add]
  intro l
  induction l with
  | nil => intro acc; simp
  | cons i t ih =>
    intro acc
    rw [List.foldl_cons, ih]
    by_cases hc : is_completed i
    · rw [if_pos hc]
      rw [List.filter_cons_of_pos (by simpa using hc), List.filterMap_cons]
      cases hs : i.storyPoints with
      | none => simp
      | some p =>
        dsimp only
        by_cases hp : p = 0
        · rw [if_neg (not_not_intro hp)]
          simp [hp]
        · rw [if_pos hp]
          simp only [List.sum_cons]
          ring
    · rw [if_neg hc, List.filter_cons_of_neg (by simpa using hc)]

/-- C1 (amended): each velocity entry reports completedPoints equal to the
sum of the story points of the completed issues of the sprint, workingDays
from _count_working_days, the standard sprint length as the integer median
of the window working-day counts, and, when workingDays is positive,
normalizedPoints equal to completedPoints divided by workingDays and
multiplied by the standard length, rounded half-to-even to one decimal
place. -/
theorem C1_velocity (parse : String → Option ℤ) (sprints : List Sprint)
    (sprintIssues : ℤ → List Issue) (i : ℕ) (s : Sprint)
    (hi : sprints.get? i = some s) :
    ∃ e, (calc_velocity parse sprints sprintIssues).sprints.get? i = some e ∧
      e.completedPoints = completedPointsSpec (sprintIssues s.id) ∧
      e.workingDays = count_working_days parse s.startDate s.endDate ∧
      (calc_velocity parse sprints sprintIssues).standardSprintDays
        = standardSprintDays (sprints.map (fun t =>
            count_working_days parse t.startDate t.endDate)) ∧
      (0 < e.workingDays →
        e.normalizedPoints = round1 (e.completedPoints / (e.workingDays : ℚ) *
          ((calc_velocity parse sprints sprintIssues).standardSprintDays : ℚ))) := by
  refine ⟨velocityEntry parse sprintIssues
    (standardSprintDays (sprints.map (fun t =>
      count_working_days parse t.startDate t.endDate))) s, ?_, ?_, rfl, rfl, ?_⟩
  · show (sprints.map _).get? i = _
    rw [List.get?_eq_getElem?, List.getElem?_map, ← List.get?_eq_getElem?, hi]
    rfl
  · exact completedPointsOf_eq_spec _
  · intro hwd
    have hwd2 : 0 < count_working_days parse s.startDate s.endDate := hwd
    show (velocityEntry parse sprintIssues _ s).normalizedPoints = _
    unfold velocityEntry
    dsimp only
    rw [if_pos hwd2, if_pos hwd2]
    rfl

/-- C1 counterexample: with a 3-working-day sprint inside a window whose
standard length is 10, one completed point gives normalizedPoints 3.3,
while the claim as frozen demands the unrounded 1 / 3 * 10 = 10 / 3. -/
theorem C1_counterexample :
    ((calc_velocity parseFixA sprintsFixA issuesFixA).sprints.get? 0).map
      (fun e => (e.completedPoints, e.workingDays, e.normalizedPoints))
      = some (1, 3, 33/10) ∧
    (calc_velocity parseFixA sprintsFixA issuesFixA).standardSprintDays = 10 ∧
    (33/10 : ℚ) ≠ 1 / 3 * 10 := by
  have hwds : sprintsFixA.map (fun t =>
      count_working_days parseFixA t.startDate t.endDate) = [3, 10, 10] := by decide
  have hstd : (calc_velocity parseFixA sprintsFixA issuesFixA).standardSprintDays = 10 := by
    show standardSprintDays (sprintsFixA.map (fun t =>
      count_working_days parseFixA t.startDate t.endDate)) = 10
    rw [hwds]
    unfold standardSprintDays
    rw [if_neg (by decide)]
    have hms : List.mergeSort [3, 10, 10] (fun a b => (a ≤ b : Bool)) = [3, 10, 10] := by
      simp [List.mergeSort]
    simp only [hms]
    decide
  refine ⟨?_, hstd, by norm_num⟩
  have hget : (calc_velocity parseFixA sprintsFixA issuesFixA).sprints.get? 0
      = some (velocityEntry parseFixA issuesFixA
          (standardSprintDays (sprintsFixA.map (fun t =>
            count_working_days parseFixA t.startDate t.endDate)))
          ⟨1, "S1", some ("A"), some ("C")⟩) := rfl
  rw [hget]
  simp only [Option.map_some']
  have hstd2 : standardSprintDays (sprintsFixA.map (fun t =>
      count_working_days parseFixA t.startDate t.endDate)) = 10 := hstd
  have hcp : completedPointsOf (issuesFixA 1) = 1 := by
    show completedPointsOf
      [{ blankIssue with key := "X-1", resolution := some ("Done"), storyPoints := some 1 }] = 1
    unfold completedPointsOf
    rw [List.foldl_cons, List.foldl_nil, if_pos (by decide)]
    dsimp only
    rw [if_pos (by norm_num)]
    norm_num
  have hwd : count_working_days parseFixA (some ("A")) (some ("C")) = 3 := by decide
  unfold velocityEntry
  simp only [hstd2, hcp, hwd]
  rw [if_pos (by norm_num), if_pos (by norm_num)]
  refine congrArg some ?_
  refine congrArg (fun x => ((1 : ℚ), 3, x)) ?_
  show round1 (1 / (3 : ℚ) * 10) = 33/10
  have harg : (1 / (3 : ℚ) * 10) * 10 = 100/3 := by norm_num
  unfold round1 rhe
  rw [harg]
  have hfloor : ⌊(100 : ℚ)/3⌋ = 33 := by norm_num
  rw [hfloor, if_pos (by norm_num)]
  norm_num

/-- Witness for C1 on the concrete fixture window. -/
theorem C1_witness :
    ∃ e, (calc_velocity parseFixA sprintsFixA issuesFixA).sprints.get? 1 = some e ∧
      e.completedPoints = completedPointsSpec (issuesFixA 2) ∧
      e.workingDays = count_working_days parseFixA (some ("A")) (some ("B")) ∧
      (calc_velocity parseFixA sprintsFixA issuesFixA).standardSprintDays
        = standardSprintDays (sprintsFixA.map (fun t =>
            count_working_days parseFixA t.startDate t.endDate)) ∧
      (0 < e.workingDays →
        e.normalizedPoints = round1 (e.completedPoints / (e.workingDays : ℚ) *
          ((calc_velocity parseFixA sprintsFixA issuesFixA).standardSprintDays : ℚ))) :=
  C1_velocity parseFixA sprintsFixA issuesFixA 1 ⟨2, "S2", some ("A"), some ("B")⟩ (by decide)

/-! ### Claim C6 -/

/-- Only tuples of pointed sub-tasks survive the processing loop. -/
theorem buildProcess_subtask_pointed (sprints : List Sprint)
    (sprintIssues : ℤ → List Issue) (favg : ℚ) (swps : List String) :
    ∀ t ∈ buildProcess sprints sprintIssues favg swps,
      t.isSubtask = true → t.issue.storyPoints.isSome := by
  unfold buildProcess
  suffices H : ∀ (l : List (ℤ × Issue)) (acc : List ProcTuple × List String),
      (∀ t ∈ acc.1, t.isSubtask = true → t.issue.storyPoints.isSome) →
      ∀ t ∈ (l.foldl (fun (acc : List ProcTuple × List String) p =>
        if !is_completed p.2 then acc
        else if acc.2.contains p.2.key then acc
        else
          let seen := p.2.key :: acc.2
          if p.2.subtask && p.2.storyPoints.isNone then (acc.1, seen)
          else if !p.2.subtask && swps.contains p.2.key then (acc.1, seen)
          else
            let points := p.2.storyPoints.getD favg
            (acc.1 ++ [⟨p.2, points, parentKeyTruthy p.2.parentKey, p.2.subtask, p.1⟩],
              seen)) acc).1,
        t.isSubtask = true → t.issue.storyPoints.isSome by
    intro t ht
    exact H _ ([], []) (by simp) t ht
  intro l
  induction l with
  | nil => intro acc hacc; exact hacc
  | cons p rest ih =>
    intro acc hacc
    rw [List.foldl_cons]
    apply ih
    by_cases h1 : is_completed p.2 = true
    · rw [if_neg (by simp [h1])]
      by_cases h2 : acc.2.contains p.2.key = true
      · rw [if_pos h2]
        exact hacc
      · rw [if_neg h2]
        dsimp only
        by_cases h3 : (p.2.subtask && p.2.storyPoints.isNone) = true
        · rw [if_pos h3]
          exact hacc
        · rw [if_neg h3]
          by_cases h4 : (!p.2.subtask && swps.contains p.2.key) = true
          · rw [if_pos h4]
            exact hacc
          · rw [if_neg h4]
            intro t ht hsub
            rcases List.mem_append.mp ht with hold | hnew
            · exact hacc t hold hsub
            · have ht2 : t = ⟨p.2, p.2.storyPoints.getD favg,
                  parentKeyTruthy p.2.parentKey, p.2.subtask, p.1⟩ := by
                simpa using hnew
              rw [ht2] at hsub ⊢
              dsimp only at hsub ⊢
              cases hsp : p.2.storyPoints with
              | none =>
                exfalso
                apply h3
                rw [hsub, hsp]
                rfl
              | some q => rfl
    · rw [if_pos (by simp [h1])]
      exact hacc

/-- C6: the initiative of a processed issue is found by walking the parent
hierarchy: a non-sub-task resolves its parent (the epic) with one lookup
(epic to initiative); a pointed sub-task resolves its parent (the story)
with two chained lookups (story to epic, then epic to initiative); the walk
yields no initiative as soon as a hop has no parent; and sub-tasks without
story points never enter the processing list. -/
theorem C6_initiative_walk :
    (∀ (parentOf : String → Option ParentInfo) (pk : String),
      get_initiative_from_parent parentOf pk false = parentOf pk) ∧
    (∀ (parentOf : String → Option ParentInfo) (pk : String),
      get_initiative_from_parent parentOf pk true
        = (parentOf pk).bind (fun epic => parentOf epic.key)) ∧
    (∀ (parentOf : String → Option ParentInfo) (pk : String),
      parentOf pk = none → get_initiative_from_parent parentOf pk true = none) ∧
    (∀ (parentOf : String → Option ParentInfo) (pk : String) (epic : ParentInfo),
      parentOf pk = some epic → parentOf epic.key = none →
      get_initiative_from_parent parentOf pk true = none) ∧
    (∀ sprints sprintIssues favg swps t,
      t ∈ buildProcess sprints sprintIssues favg swps →
      t.isSubtask = true → t.issue.storyPoints.isSome) := by
  refine ⟨fun parentOf pk => rfl, ?_, ?_, ?_,
    fun sprints sprintIssues favg swps t ht hsub =>
      buildProcess_subtask_pointed sprints sprintIssues favg swps t ht hsub⟩
  · intro parentOf pk
    unfold get_initiative_from_parent
    cases parentOf pk <;> rfl
  · intro parentOf pk h
    unfold get_initiative_from_parent
    rw [h]
    rfl
  · intro parentOf pk epic h1 h2
    unfold get_initiative_from_parent
    rw [h1]
    exact h2

/-- Witness for C6: the two-hop walk of a story parent and the one-hop walk
of an epic parent on a concrete parent oracle. -/
theorem C6_witness :
    get_initiative_from_parent parentFixF ("ST-1") true
      = some ⟨"IN-1", "initiative", "IN", "Initiative"⟩ ∧
    get_initiative_from_parent parentFixF ("EP-1") false
      = some ⟨"IN-1", "initiative", "IN", "Initiative"⟩ := by
  have h := C6_initiative_walk
  constructor
  · rw [h.2.1 parentFixF ("ST-1")]
    decide
  · rw [h.1 parentFixF ("EP-1")]
    decide

/-! ### Claim C8 -/

/-- Field bookkeeping of one alignment step: the points of the tuple land
in the total of its sprint and in exactly one of linked or orphan. -/
theorem alignStep_delta (L : String → Option ParentInfo) (E : List String)
    (SL : Option String) (LB : String → List String) (tot : ℤ → SprintTotals)
    (t : ProcTuple) (sid : ℤ) :
    ((alignStep L E SL LB tot t) sid).linked + ((alignStep L E SL LB tot t) sid).orphan
      = (tot sid).linked + (tot sid).orphan + (if sid = t.sprintId then t.points else 0) ∧
    ((alignStep L E SL LB tot t) sid).total
      = (tot sid).total + (if sid = t.sprintId then t.points else 0) := by
  unfold alignStep
  by_cases hsid : sid = t.sprintId
  · simp only [if_pos hsid]
    constructor
    · dsimp only
      repeat' split
      all_goals dsimp only
      all_goals ring
    · dsimp only
      repeat' split
      all_goals dsimp only
  · simp only [if_neg hsid]
    constructor
    · ring
    · ring

/-- The totals fold keeps linked plus orphan equal to total for every
sprint id. -/
theorem alignTotals_invariant (lookupInit : String → Option ParentInfo)
    (excluded : List String) (serviceLabel : Option String)
    (labelsOf : String → List String) (tuples : List ProcTuple) :
    ∀ sid, ((tuples.foldl (alignStep lookupInit excluded serviceLabel labelsOf)
        (fun _ => zeroTotals)) sid).linked
      + ((tuples.foldl (alignStep lookupInit excluded serviceLabel labelsOf)
        (fun _ => zeroTotals)) sid).orphan
      = ((tuples.foldl (alignStep lookupInit excluded serviceLabel labelsOf)
        (fun _ => zeroTotals)) sid).total := by
  suffices H : ∀ (l : List ProcTuple) (init : ℤ → SprintTotals),
      (∀ sid, (init sid).linked + (init sid).orphan = (init sid).total) →
      ∀ sid, ((l.foldl (alignStep lookupInit excluded serviceLabel labelsOf) init) sid).linked
        + ((l.foldl (alignStep lookupInit excluded serviceLabel labelsOf) init) sid).orphan
        = ((l.foldl (alignStep lookupInit excluded serviceLabel labelsOf) init) sid).total by
    exact H tuples (fun _ => zeroTotals) (by
      intro sid
      show (0 : ℚ) + 0 = 0
      norm_num)
  intro l
  induction l with
  | nil => intro init h; exact h
  | cons t rest ih =>
    intro init hinit
    rw [List.foldl_cons]
    apply ih
    intro sid
    have hd := alignStep_delta lookupInit excluded serviceLabel labelsOf init t sid
    rw [hd.1, hd.2]
    have := hinit sid
    linarith

/-- C8: in every alignment entry each processed issue adds its points to
the sprint total and to exactly one of the linked or orphan buckets, so the
unrounded linked plus orphan totals equal the unrounded sprint total, and
for a sprint with positive total points the rounded linked and orphan
percentages sum to exactly 100. -/
theorem C8_alignment_partition (parentOf : String → Option ParentInfo)
    (labelsOf : String → List String) (sprints : List Sprint)
    (sprintIssues : ℤ → List Issue) (excluded : List String)
    (serviceLabel : Option String) (i : ℕ) (s : Sprint)
    (hi : sprints.get? i = some s) :
    ((alignTotalsOf parentOf labelsOf sprints sprintIssues excluded serviceLabel s.id).linked
      + (alignTotalsOf parentOf labelsOf sprints sprintIssues excluded serviceLabel s.id).orphan
      = (alignTotalsOf parentOf labelsOf sprints sprintIssues excluded serviceLabel s.id).total) ∧
    ((calc_alignment parentOf labelsOf sprints sprintIssues excluded serviceLabel).sprints.get? i
      = some (alignmentEntryOf
          (alignTotalsOf parentOf labelsOf sprints sprintIssues excluded serviceLabel s.id) s)) ∧
    (0 < (alignTotalsOf parentOf labelsOf sprints sprintIssues excluded serviceLabel s.id).total →
      (alignmentEntryOf
          (alignTotalsOf parentOf labelsOf sprints sprintIssues excluded serviceLabel s.id)
          s).initiativeLinkedPercentage
        + (alignmentEntryOf
          (alignTotalsOf parentOf labelsOf sprints sprintIssues excluded serviceLabel s.id)
          s).orphanPercentage = 100) := by
  refine ⟨?_, ?_, ?_⟩
  · show ((alignTotalsOf parentOf labelsOf sprints sprintIssues excluded serviceLabel) s.id).linked
      + _ = _
    unfold alignTotalsOf
    exact alignTotals_invariant _ _ _ _ _ s.id
  · show ((sprints.map _).get? i) = _
    rw [List.get?_eq_getElem?, List.getElem?_map, ← List.get?_eq_getElem?, hi]
    rfl
  · intro hpos
    set tot := alignTotalsOf parentOf labelsOf sprints sprintIssues excluded serviceLabel s.id
      with htot
    show round1 (if 0 < tot.total then tot.linked / tot.total * 100 else 0)
      + round1 (100 - (if 0 < tot.total then tot.linked / tot.total * 100 else 0)) = 100
    rw [if_pos hpos]
    exact round1_complement _

/-- Witness for C8: one completed orphan one-point issue gives a sprint
with total 1, and the rounded percentages sum to 100. -/
theorem C8_witness :
    (alignmentEntryOf
        (alignTotalsOf (fun _ => none) (fun _ => []) sprintsFixE issuesFixE [] none 1)
        ⟨1, "S1", none, none⟩).initiativeLinkedPercentage
      + (alignmentEntryOf
        (alignTotalsOf (fun _ => none) (fun _ => []) sprintsFixE issuesFixE [] none 1)
        ⟨1, "S1", none, none⟩).orphanPercentage = 100 := by
  have h := C8_alignment_partition (fun _ => none) (fun _ => []) sprintsFixE issuesFixE
    [] none 0 ⟨1, "S1", none, none⟩ (by decide)
  apply h.2.2
  have he : (alignTotalsOf (fun _ => none) (fun _ => []) sprintsFixE issuesFixE [] none) 1
      = { total := 0 + 1, linked := 0, orphan := 0 + 1, service := 0, business := 0 } := rfl
  show (0 : ℚ) < ((alignTotalsOf (fun _ => none) (fun _ => []) sprintsFixE issuesFixE
    [] none) 1).total
  rw [he]
  norm_num

/-! ### Claim C3 -/

/-- C3 counterexample: the dict returned by get_all_metrics has exactly
five keys, not the six views the claim asserts. -/
theorem C3_counterexample :
    all_metrics_views.length = 5 ∧ all_metrics_views.length ≠ 6 := by decide

/-- C3 (amended): get_all_metrics computes five derived-metric views from a
single prefetched dataset; each view of the returned record coincides with
the individually fetched metric over the same window and the same per-sprint
issue map. -/
theorem C3_get_all_metrics (env : JiraEnv) (board_id : ℤ) (excluded : List String)
    (sd ed : Option String) (sc : Option ℕ) (serviceLabel : Option String) :
    all_metrics_views.length = 5 ∧
    (get_all_metrics env board_id excluded sd ed sc serviceLabel).velocity
      = get_velocity_metrics env board_id sd ed sc ∧
    (get_all_metrics env board_id excluded sd ed sc serviceLabel).completion
      = get_completion_metrics env board_id sd ed sc ∧
    (get_all_metrics env board_id excluded sd ed sc serviceLabel).quality
      = get_quality_metrics env board_id sd ed sc ∧
    (get_all_metrics env board_id excluded sd ed sc serviceLabel).alignment
      = get_alignment_metrics env board_id excluded sd ed sc serviceLabel ∧
    (get_all_metrics env board_id excluded sd ed sc serviceLabel).coverage
      = get_coverage_metrics env board_id sd ed sc :=
  ⟨rfl, rfl, rfl, rfl, rfl, rfl⟩

/-! ### Claim C7 -/

theorem cacheExtends_refl (st : ServiceState) : cacheExtends st st :=
  ⟨fun _ h => h, fun _ _ h => h, fun _ _ h => h, fun _ _ h => h, fun _ h => h⟩

/-- A lookup hit survives an appended entry. -/
theorem lookup_extends {α β : Type} [BEq α] (l : List (α × β)) (e : α × β) :
    ∀ k v, List.lookup k l = some v → List.lookup k (l ++ [e]) = some v :=
  fun k v h => lookup_append_some l [e] k v h

theorem spf_extends (api : ApiOracle) (st : ServiceState) :
    cacheExtends st (get_story_points_fields_s api st).2.1 := by
  unfold get_story_points_fields_s
  cases hc : st.story_points_fields_cache with
  | some v => exact cacheExtends_refl st
  | none =>
    refine ⟨?_, fun _ _ h => h, fun _ _ h => h, fun _ _ h => h, fun _ h => h⟩
    intro v hv
    rw [hc] at hv
    exact absurd hv (by simp)

theorem spf_repeat (api : ApiOracle) (st : ServiceState) :
    get_story_points_fields_s api (get_story_points_fields_s api st).2.1
      = ((get_story_points_fields_s api st).1,
          (get_story_points_fields_s api st).2.1, 0) := by
  unfold get_story_points_fields_s
  cases hc : st.story_points_fields_cache with
  | some v =>
    dsimp only
    rw [hc]
  | none => rfl

theorem statcat_extends (api : ApiOracle) (st : ServiceState) :
    cacheExtends st (get_status_categories_s api st).2.1 := by
  unfold get_status_categories_s
  cases hc : st.status_categories_cache with
  | some v => exact cacheExtends_refl st
  | none =>
    cases api.statusApi with
    | some statuses =>
      refine ⟨fun _ h => h, fun _ _ h => h, fun _ _ h => h, fun _ _ h => h, ?_⟩
      intro v hv
      rw [hc] at hv
      exact absurd hv (by simp)
    | none =>
      refine ⟨fun _ h => h, fun _ _ h => h, fun _ _ h => h, fun _ _ h => h, ?_⟩
      intro v hv
      rw [hc] at hv
      exact absurd hv (by simp)

theorem statcat_repeat (api : ApiOracle) (st : ServiceState) :
    get_status_categories_s api (get_status_categories_s api st).2.1
      = ((get_status_categories_s api st).1,
          (get_status_categories_s api st).2.1, 0) := by
  unfold get_status_categories_s
  cases hc : st.status_categories_cache with
  | some v =>
    dsimp only
    rw [hc]
  | none => cases api.statusApi with
    | some statuses => rfl
    | none => rfl

theorem sprints_extends (api : ApiOracle) (board_id : ℤ) (limit : ℕ)
    (sd ed : Option String) (sc : Option ℕ) (st : ServiceState) :
    cacheExtends st (get_sprints_s api board_id limit sd ed sc st).2.1 := by
  unfold get_sprints_s
  dsimp only
  cases hc : List.lookup (sprintsCacheKey board_id (effectiveLimit limit sc) sd ed)
      st.sprints_cache with
  | some v => exact cacheExtends_refl st
  | none =>
    exact ⟨fun _ h => h, fun k v h => lookup_extends _ _ k v h,
      fun _ _ h => h, fun _ _ h => h, fun _ h => h⟩

theorem sprints_repeat (api : ApiOracle) (board_id : ℤ) (limit : ℕ)
    (sd ed : Option String) (sc : Option ℕ) (st : ServiceState) :
    get_sprints_s api board_id limit sd ed sc
        (get_sprints_s api board_id limit sd ed sc st).2.1
      = ((get_sprints_s api board_id limit sd ed sc st).1,
          (get_sprints_s api board_id limit sd ed sc st).2.1, 0) := by
  unfold get_sprints_s
  dsimp only
  cases hc : List.lookup (sprintsCacheKey board_id (effectiveLimit limit sc) sd ed)
      st.sprints_cache with
  | some v =>
    dsimp only
    rw [hc]
  | none =>
    have h2 : List.lookup (sprintsCacheKey board_id (effectiveLimit limit sc) sd ed)
        (st.sprints_cache ++ [(sprintsCacheKey board_id (effectiveLimit limit sc) sd ed,
          sprintsFromAll (fetchPages 50 (by decide)
            (api.sprintApi board_id ("closed")) 0).1 (effectiveLimit limit sc) sd ed)])
        = some (sprintsFromAll (fetchPages 50 (by decide)
            (api.sprintApi board_id ("closed")) 0).1 (effectiveLimit limit sc) sd ed) := by
      rw [lookup_append_none _ _ _ hc]
      simp [List.lookup]
    rw [h2]

theorem issues_extends (api : ApiOracle) (sprint_id : ℤ) (st : ServiceState) :
    cacheExtends st (get_sprint_issues_s api sprint_id st).2.1 := by
  unfold get_sprint_issues_s
  cases hc : List.lookup sprint_id st.issues_cache with
  | some v => exact cacheExtends_refl st
  | none =>
    unfold get_story_points_fields_s
    cases hspf : st.story_points_fields_cache with
    | some v =>
      exact ⟨fun _ h => h, fun _ _ h => h, fun k v h => lookup_extends _ _ k v h,
        fun _ _ h => h, fun _ h => h⟩
    | none =>
      refine ⟨?_, fun _ _ h => h, fun k v h => lookup_extends _ _ k v h,
        fun _ _ h => h, fun _ h => h⟩
      intro v hv
      rw [hspf] at hv
      exact absurd hv (by simp)

theorem issues_repeat (api : ApiOracle) (sprint_id : ℤ) (st : ServiceState) :
    get_sprint_issues_s api sprint_id (get_sprint_issues_s api sprint_id st).2.1
      = ((get_sprint_issues_s api sprint_id st).1,
          (get_sprint_issues_s api sprint_id st).2.1, 0) := by
  unfold get_sprint_issues_s
  cases hc : List.lookup sprint_id st.issues_cache with
  | some v =>
    dsimp only
    rw [hc]
  | none =>
    unfold get_story_points_fields_s
    cases hspf : st.story_points_fields_cache with
    | some v =>
      have h2 : List.lookup sprint_id (st.issues_cache ++ [(sprint_id,
          (fetchPages 100 (by decide) (api.sprintIssuesApi sprint_id) 0).1)])
          = some (fetchPages 100 (by decide) (api.sprintIssuesApi sprint_id) 0).1 := by
        rw [lookup_append_none _ _ _ hc]
        simp [List.lookup]
      dsimp only
      rw [h2]
    | none =>
      have h2 : List.lookup sprint_id (st.issues_cache ++ [(sprint_id,
          (fetchPages 100 (by decide) (api.sprintIssuesApi sprint_id) 0).1)])
          = some (fetchPages 100 (by decide) (api.sprintIssuesApi sprint_id) 0).1 := by
        rw [lookup_append_none _ _ _ hc]
        simp [List.lookup]
      dsimp only
      rw [h2]

theorem parent_extends (api : ApiOracle) (issue_key : String) (st : ServiceState) :
    cacheExtends st (get_issue_parent_s api issue_key st).2.1 := by
  unfold get_issue_parent_s
  dsimp only
  cases hc : List.lookup (("parent_") ++ issue_key) st.parent_cache with
  | some v => exact cacheExtends_refl st
  | none =>
    exact ⟨fun _ h => h, fun _ _ h => h, fun _ _ h => h,
      fun k v h => lookup_extends _ _ k v h, fun _ h => h⟩

theorem parent_repeat (api : ApiOracle) (issue_key : String) (st : ServiceState) :
    get_issue_parent_s api issue_key (get_issue_parent_s api issue_key st).2.1
      = ((get_issue_parent_s api issue_key st).1,
          (get_issue_parent_s api issue_key st).2.1, 0) := by
  unfold get_issue_parent_s
  dsimp only
  cases hc : List.lookup (("parent_") ++ issue_key) st.parent_cache with
  | some v =>
    dsimp only
    rw [hc]
  | none =>
    have h2 : List.lookup (("parent_") ++ issue_key)
        (st.parent_cache ++ [(("parent_") ++ issue_key, api.parentApi issue_key)])
        = some (api.parentApi issue_key) := by
      rw [lookup_append_none _ _ _ hc]
      simp [List.lookup]
    rw [h2]

/-- C7: the cache-backed fetch operations (story point fields, status
categories, sprint window, sprint issues, issue parent) never delete nor
replace an existing cache entry, and a repeated call with the same
arguments returns the previously cached value with no further request and
no state change. -/
theorem C7_caches_monotone (api : ApiOracle) (st : ServiceState) (board_id : ℤ)
    (limit : ℕ) (sd ed : Option String) (sc : Option ℕ) (sprint_id : ℤ)
    (issue_key : String) :
    cacheExtends st (get_story_points_fields_s api st).2.1 ∧
    cacheExtends st (get_status_categories_s api st).2.1 ∧
    cacheExtends st (get_sprints_s api board_id limit sd ed sc st).2.1 ∧
    cacheExtends st (get_sprint_issues_s api sprint_id st).2.1 ∧
    cacheExtends st (get_issue_parent_s api issue_key st).2.1 ∧
    get_story_points_fields_s api (get_story_points_fields_s api st).2.1
      = ((get_story_points_fields_s api st).1,
          (get_story_points_fields_s api st).2.1, 0) ∧
    get_status_categories_s api (get_status_categories_s api st).2.1
      = ((get_status_categories_s api st).1,
          (get_status_categories_s api st).2.1, 0) ∧
    get_sprints_s api board_id limit sd ed sc
        (get_sprints_s api board_id limit sd ed sc st).2.1
      = ((get_sprints_s api board_id limit sd ed sc st).1,
          (get_sprints_s api board_id limit sd ed sc st).2.1, 0) ∧
    get_sprint_issues_s api sprint_id (get_sprint_issues_s api sprint_id st).2.1
      = ((get_sprint_issues_s api sprint_id st).1,
          (get_sprint_issues_s api sprint_id st).2.1, 0) ∧
    get_issue_parent_s api issue_key (get_issue_parent_s api issue_key st).2.1
      = ((get_issue_parent_s api issue_key st).1,
          (get_issue_parent_s api issue_key st).2.1, 0) :=
  ⟨spf_extends api st, statcat_extends api st,
    sprints_extends api board_id limit sd ed sc st,
    issues_extends api sprint_id st, parent_extends api issue_key st,
    spf_repeat api st, statcat_repeat api st,
    sprints_repeat api board_id limit sd ed sc st,
    issues_repeat api sprint_id st, parent_repeat api issue_key st⟩

/-- Witness for C7: on the fresh state of the constructor, the repeated
parent fetch of K-1 returns the cached parent with zero requests. -/
theorem C7_witness :
    get_issue_parent_s apiFixG ("K-1")
        ((get_issue_parent_s apiFixG ("K-1") initState).2.1)
      = ((get_issue_parent_s apiFixG ("K-1") initState).1,
          (get_issue_parent_s apiFixG ("K-1") initState).2.1, 0) ∧
    (get_issue_parent_s apiFixG ("K-1") initState).1
      = some ⟨"P-1", "parent", "P", "Epic"⟩ ∧
    (get_issue_parent_s apiFixG ("K-1") initState).2.2 = 1 := by
  refine ⟨(C7_caches_monotone apiFixG initState 0 6 none none none 0 ("K-1")).2.2.2.2.2.2.2.2.2,
    ?_, ?_⟩
  · decide
  · decide

/-! ### Claim C2 -/

/-- addContrib keeps the key list when the key exists and appends it
otherwise. -/
theorem addContrib_keys (acc : List (String × List ℚ)) (c : String × ℚ) :
    (addContrib acc c).map Prod.fst =
      if acc.any (fun e => e.1 == c.1) then acc.map Prod.fst
      else acc.map Prod.fst ++ [c.1] := by
  unfold addContrib
  by_cases h : acc.any (fun e => e.1 == c.1) = true
  · rw [if_pos h, if_pos h, List.map_map]
    apply List.map_congr_left
    intro e _
    by_cases h2 : (e.1 == c.1) = true
    · simp [Function.comp, h2]
    · simp [Function.comp, h2]
  · rw [if_neg h, if_neg h, List.map_append]
    rfl

theorem addContrib_keys_nodup (acc : List (String × List ℚ)) (c : String × ℚ)
    (h : (acc.map Prod.fst).Nodup) : ((addContrib acc c).map Prod.fst).Nodup := by
  rw [addContrib_keys]
  by_cases hc : acc.any (fun e => e.1 == c.1) = true
  · rw [if_pos hc]
    exact h
  · rw [if_neg hc]
    have hne : c.1 ∉ acc.map Prod.fst := by
      intro hmem
      rcases List.mem_map.mp hmem with ⟨e, he, hfe⟩
      exact hc (List.any_eq_true.mpr ⟨e, he, by simp [hfe]⟩)
    exact List.Nodup.append h (List.nodup_singleton _)
      (List.disjoint_singleton.mpr hne)

/-- The first entry of a given key after one accumulation step. -/
theorem find?_addContrib (acc : List (String × List ℚ)) (c : String × ℚ) (s : String) :
    (addContrib acc c).find? (fun e => e.1 == s) =
      if c.1 = s then
        (match acc.find? (fun e => e.1 == s) with
         | some e => some (e.1, e.2 ++ [c.2])
         | none => some (c.1, [c.2]))
      else acc.find? (fun e => e.1 == s) := by
  unfold addContrib
  by_cases hany : acc.any (fun e => e.1 == c.1) = true
  · rw [if_pos hany, List.find?_map]
    have hpe : ((fun e : String × List ℚ => e.1 == s) ∘
        (fun e : String × List ℚ => if e.1 == c.1 then (e.1, e.2 ++ [c.2]) else e))
        = fun e : String × List ℚ => e.1 == s := by
      funext e
      by_cases h2 : (e.1 == c.1) = true
      · simp [Function.comp, h2]
      · simp [Function.comp, h2]
    rw [hpe]
    by_cases hcs : c.1 = s
    · rw [if_pos hcs]
      cases hf : acc.find? (fun e => e.1 == s) with
      | none =>
        exfalso
        rcases List.any_eq_true.mp hany with ⟨e, he, hec⟩
        have hes : (e.1 == s) = true := by
          have : e.1 = c.1 := by simpa using hec
          rw [this, hcs]
          exact beq_self_eq_true s
        exact (List.find?_eq_none.mp hf e he) hes
      | some e =>
        simp only [Option.map_some']
        have hes := List.find?_some hf
        have hec : (e.1 == c.1) = true := by
          have : e.1 = s := by simpa using hes
          rw [this, hcs]
          exact beq_self_eq_true s
        rw [if_pos hec]
    · rw [if_neg hcs]
      cases hf : acc.find? (fun e => e.1 == s) with
      | none => simp
      | some e =>
        simp only [Option.map_some']
        have hes0 := List.find?_some hf
        have hes : e.1 = s := by simpa using hes0
        have hec : ¬((e.1 == c.1) = true) := by
          rw [hes]
          simp
          intro hsc
          exact hcs hsc.symm
        rw [if_neg hec]
  · rw [if_neg hany, List.find?_append]
    cases hf : acc.find? (fun e => e.1 == s) with
    | some e =>
      have hes0 := List.find?_some hf
      have hes : e.1 = s := by simpa using hes0
      by_cases hcs : c.1 = s
      · exfalso
        apply hany
        apply List.any_eq_true.mpr
        refine ⟨e, List.mem_of_find?_eq_some hf, ?_⟩
        rw [hes, hcs]
        exact beq_self_eq_true s
      · rw [if_neg hcs]
        rfl
    | none =>
      by_cases hcs : c.1 = s
      · rw [if_pos hcs]
        have hbe : (c.1 == s) = true := by
          rw [hcs]
          exact beq_self_eq_true s
        simp [List.find?, hbe]
      · rw [if_neg hcs]
        have hbe : (c.1 == s) = false := by simpa using hcs
        simp [List.find?, hbe]

/-- The first entry of a given key after folding a contribution list. -/
theorem find?_statusTimes_aux (s : String) :
    ∀ (l : List (String × ℚ)) (acc : List (String × List ℚ)),
      (acc.map Prod.fst).Nodup →
      (l.foldl addContrib acc).find? (fun e => e.1 == s) =
        (match acc.find? (fun e => e.1 == s) with
         | some e => some (e.1, e.2 ++ (l.filter (fun c => c.1 == s)).map Prod.snd)
         | none =>
           if (l.filter (fun c => c.1 == s)) = [] then none
           else some (s, (l.filter (fun c => c.1 == s)).map Prod.snd)) := by
  intro l
  induction l with
  | nil =>
    intro acc _
    simp only [List.foldl_nil, List.filter_nil, List.map_nil]
    cases hf : acc.find? (fun e => e.1 == s) with
    | some e => simp
    | none => simp
  | cons c rest ih =>
    intro acc hacc
    rw [List.foldl_cons, ih _ (addContrib_keys_nodup acc c hacc), find?_addContrib]
    by_cases hcs : c.1 = s
    · rw [if_pos hcs, List.filter_cons_of_pos (by simp [hcs])]
      cases hf : acc.find? (fun e => e.1 == s) with
      | some e =>
        dsimp only
        simp
      | none =>
        dsimp only
        simp only [List.map_cons]
        rw [if_neg (by simp)]
        rw [hcs]
        simp
    · rw [if_neg hcs, List.filter_cons_of_neg (by simp [hcs])]

/-- status_times keeps one entry per status: the in-order hours of its
contributions. -/
theorem find?_statusTimes (s : String) (l : List (String × ℚ)) :
    (statusTimesOf l).find? (fun e => e.1 == s) =
      (if (l.filter (fun c => c.1 == s)) = [] then none
       else some (s, (l.filter (fun c => c.1 == s)).map Prod.snd)) := by
  unfold statusTimesOf
  rw [find?_statusTimes_aux s l [] (by simp)]
  rfl

theorem statusTimes_keys_nodup (l : List (String × ℚ)) :
    ((statusTimesOf l).map Prod.fst).Nodup := by
  unfold statusTimesOf
  suffices H : ∀ (l2 : List (String × ℚ)) (acc : List (String × List ℚ)),
      (acc.map Prod.fst).Nodup → ((l2.foldl addContrib acc).map Prod.fst).Nodup by
    exact H l [] (by simp)
  intro l2
  induction l2 with
  | nil => intro acc h; exact h
  | cons c rest ih =>
    intro acc h
    rw [List.foldl_cons]
    exact ih _ (addContrib_keys_nodup acc c h)

/-- In a map with unique keys, membership determines the find? result. -/
theorem find?_of_mem_nodupKeys (m : List (String × List ℚ)) (e : String × List ℚ)
    (hnd : (m.map Prod.fst).Nodup) (he : e ∈ m) :
    m.find? (fun x => x.1 == e.1) = some e := by
  induction m with
  | nil => simp at he
  | cons h t ih =>
    rcases List.mem_cons.mp he with rfl | ht
    · exact List.find?_cons_of_pos t (beq_self_eq_true e.1)
    · have hkey : h.1 ∈ List.map Prod.fst (h :: t) ∧ (List.map Prod.fst t).Nodup
          ∧ h.1 ∉ List.map Prod.fst t := by
        rw [List.map_cons] at hnd
        exact ⟨by simp, hnd.of_cons, by simpa using (List.nodup_cons.mp hnd).1⟩
      have hne : ¬((h.1 == e.1) = true) := by
        intro hbe
        have : h.1 = e.1 := by simpa using hbe
        apply hkey.2.2
        rw [this]
        exact List.mem_map.mpr ⟨e, ht, rfl⟩
      rw [List.find?_cons_of_neg t hne]
      exact ih hkey.2.1 ht

/-- C2 (amended): for every window sprint whose dates parse, the
time-in-status entry derives from the changelog of every historical issue
the clipped occupancy durations inside the sprint boundaries; every status
of the in-progress category occupied for a positive clipped duration
appears in statusBreakdown, every breakdown row stems from such an
occupancy, and its totalTimeHours is the rounded sum of the hours charged
to that status.  The frozen claim also demands rows for to-do- and
done-category statuses, which the code deliberately drops. -/
theorem C2_time_in_status (parse : String → Option ℤ) (cats : String → Option String)
    (historicalIssuesOf : ℤ → List Issue) (sprints : List Sprint) (s : Sprint)
    (ss se : ℤ) (hs : s ∈ sprints)
    (h1 : s.startDate.bind parse = some ss) (h2 : s.endDate.bind parse = some se) :
    timeInStatusEntry parse cats historicalIssuesOf ss se s
        ∈ (calc_time_in_status parse cats historicalIssuesOf sprints).sprints ∧
    (∀ st0 q,
      (st0, q) ∈ (historicalIssuesOf s.id).flatMap (issueContribs parse cats ss se) →
      ∃ b ∈ (timeInStatusEntry parse cats historicalIssuesOf ss se s).statusBreakdown,
        b.status = st0) ∧
    (∀ b ∈ (timeInStatusEntry parse cats historicalIssuesOf ss se s).statusBreakdown,
      (∃ q, (b.status, q)
          ∈ (historicalIssuesOf s.id).flatMap (issueContribs parse cats ss se)) ∧
      b.totalTimeHours = round1
        ((((historicalIssuesOf s.id).flatMap (issueContribs parse cats ss se)).filter
          (fun c => c.1 == b.status)).map Prod.snd).sum) := by
  have hbreak : (timeInStatusEntry parse cats historicalIssuesOf ss se s).statusBreakdown
      = ((statusTimesOf ((historicalIssuesOf s.id).flatMap
          (issueContribs parse cats ss se))).map
            (fun e => ({ status := e.1, totalTimeHours := round1 e.2.sum } : StatusEntry))).mergeSort
        (fun a b => (b.totalTimeHours ≤ a.totalTimeHours : Bool)) := rfl
  set L := (historicalIssuesOf s.id).flatMap (issueContribs parse cats ss se) with hLdef
  refine ⟨?_, ?_, ?_⟩
  · apply List.mem_filterMap.mpr
    refine ⟨s, hs, ?_⟩
    rw [h1, h2]
  · intro st0 q hmem
    have hfilter : L.filter (fun c => c.1 == st0) ≠ [] := by
      intro hnil
      have hin : (st0, q) ∈ L.filter (fun c => c.1 == st0) :=
        List.mem_filter.mpr ⟨hmem, beq_self_eq_true st0⟩
      rw [hnil] at hin
      simp at hin
    have hfind := find?_statusTimes st0 L
    rw [if_neg hfilter] at hfind
    have hmemST := List.mem_of_find?_eq_some hfind
    refine ⟨⟨st0, round1 (((L.filter (fun c => c.1 == st0)).map Prod.snd).sum)⟩, ?_, rfl⟩
    rw [hbreak, (List.mergeSort_perm _ _).mem_iff]
    exact List.mem_map.mpr ⟨_, hmemST, rfl⟩
  · intro b hb
    rw [hbreak, (List.mergeSort_perm _ _).mem_iff] at hb
    rcases List.mem_map.mp hb with ⟨e, heST, hbe⟩
    have hfind := find?_of_mem_nodupKeys _ e (statusTimes_keys_nodup L) heST
    rw [find?_statusTimes e.1 L] at hfind
    by_cases hnil : L.filter (fun c => c.1 == e.1) = []
    · rw [if_pos hnil] at hfind
      exact absurd hfind (by simp)
    · rw [if_neg hnil] at hfind
      injection hfind with hfe
      have hstatus : b.status = e.1 := by rw [← hbe]
      have hsnd : e.2 = (L.filter (fun c => c.1 == e.1)).map Prod.snd := by
        rw [← hfe]
      constructor
      · rcases List.exists_mem_of_ne_nil _ hnil with ⟨c, hc⟩
        rcases List.mem_filter.mp hc with ⟨hcL, hck⟩
        have hck2 : c.1 = e.1 := by simpa using hck
        refine ⟨c.2, ?_⟩
        have hcform : (b.status, c.2) = c := by
          rw [hstatus, ← hck2]
        rw [hcform]
        exact hcL
      · rw [hstatus, ← hbe]
        show round1 e.2.sum = _
        rw [hsnd]

/-- The sorted single history of the fixture issue. -/
theorem sortHistories_fixD :
    sortHistories parseFixD issueFixD.changelog = issueFixD.changelog := by
  have h : issueFixD.changelog
      = [⟨some ("T1"), [⟨"status", some ("to do"), some ("in progress")⟩]⟩] := rfl
  rw [h]
  unfold sortHistories
  simp [List.mergeSort]

/-- The transitions of the fixture issue: one switch from to do to in
progress at day five. -/
theorem transitionsOf_fixD :
    transitionsOf parseFixD issueFixD
      = [⟨432000, some ("to do"), some ("in progress")⟩] := by
  unfold transitionsOf
  rw [sortHistories_fixD]
  decide

/-- The contributions of the fixture issue: only the in-progress tail of
the sprint is charged; the five days spent in the to-do status are
dropped. -/
theorem contribs_fixD :
    (histFixD 1).flatMap (issueContribs parseFixD catsFixD 0 864000)
      = [(("in progress"), ((864000 - 432000 : ℤ) : ℚ) / 3600)] := by
  show ([issueFixD].flatMap (issueContribs parseFixD catsFixD 0 864000)) = _
  rw [List.flatMap_cons, List.flatMap_nil, List.append_nil]
  unfold issueContribs
  rw [transitionsOf_fixD]
  rw [if_neg (by decide)]
  have htrans : transContribs catsFixD 0 864000 (issueFixD.created.bind parseFixD)
      [⟨432000, some ("to do"), some ("in progress")⟩] = [] := by
    unfold transContribs clipContrib
    simp only [List.map_cons, List.map_nil, List.zip_cons_cons, List.zip_nil_right,
      List.flatMap_cons, List.flatMap_nil]
    rw [if_pos (by decide), if_neg (by decide)]
    rfl
  have hfinal : finalContrib catsFixD 0 864000 issueFixD.statusName
      [⟨432000, some ("to do"), some ("in progress")⟩]
      = [(("in progress"), ((864000 - 432000 : ℤ) : ℚ) / 3600)] := by
    unfold finalContrib
    simp only [List.getLast?_singleton]
    rw [if_pos (by decide)]
    rw [if_pos (by decide), if_pos (by decide), if_pos (by decide)]
    have hsn : issueFixD.statusName = some ("in progress") := rfl
    rw [hsn]
    norm_num
  rw [htrans, hfinal, List.nil_append]

/-- C2 counterexample: the fixture issue occupied the to-do-category
status to do during the first five days of the sprint (a positive clipped
duration), yet the statusBreakdown of the sprint lists only the in-progress
status: statuses outside the in-progress category never appear. -/
theorem C2_counterexample :
    ((timeInStatusEntry parseFixD catsFixD histFixD 0 864000 sprintFixD).statusBreakdown.map
      (fun b => b.status)) = [("in progress")] ∧
    (("to do") : String) ∉ ((timeInStatusEntry parseFixD catsFixD histFixD 0 864000
      sprintFixD).statusBreakdown.map (fun b => b.status)) ∧
    transitionsOf parseFixD issueFixD
      = [⟨432000, some ("to do"), some ("in progress")⟩] ∧
    issueFixD.created.bind parseFixD = some 0 ∧
    max (0 : ℤ) 0 < min 432000 864000 ∧
    is_in_progress_status catsFixD (some ("to do")) = false := by
  have hc : (histFixD sprintFixD.id).flatMap (issueContribs parseFixD catsFixD 0 864000)
      = [(("in progress"), ((864000 - 432000 : ℤ) : ℚ) / 3600)] := contribs_fixD
  have hst : statusTimesOf [(("in progress"), ((864000 - 432000 : ℤ) : ℚ) / 3600)]
      = [(("in progress"), [((864000 - 432000 : ℤ) : ℚ) / 3600])] := by
    unfold statusTimesOf addContrib
    simp
  have hmap : ((timeInStatusEntry parseFixD catsFixD histFixD 0 864000
      sprintFixD).statusBreakdown.map (fun b => b.status)) = [("in progress")] := by
    unfold timeInStatusEntry
    dsimp only
    rw [hc, hst]
    simp [List.mergeSort]
  refine ⟨hmap, ?_, transitionsOf_fixD, by decide, by decide, by decide⟩
  rw [hmap]
  decide

/-- Witness for C2: the fixture sprint entry belongs to the computed
metrics, by the theorem applied at the concrete window. -/
theorem C2_witness :
    timeInStatusEntry parseFixD catsFixD histFixD 0 864000 sprintFixD
      ∈ (calc_time_in_status parseFixD catsFixD histFixD [sprintFixD]).sprints :=
  (C2_time_in_status parseFixD catsFixD histFixD [sprintFixD] sprintFixD 0 864000
    (List.mem_cons_self _ _) (by decide) (by decide)).1

end SprintAnalyzer
